import Mathlib

/-!
Shallow embedding of the lmms2mid converter (src/main.rs, src/lmms_model.rs).

Conventions of the embedding:
- Rust usize/isize become Nat/Int; wrapping integer casts are written as
  explicit remainders (the midly restricted integers u4/u7/u15/u24 convert
  from primitives with from_int_lossy, which masks the high bits).
- The two f32 computations whose results feed claims are modeled exactly:
  the linear 0..200 -> 0..127 velocity remap is exact for every integer
  input (the f32 rounding error, at most about 1e-5 here, is far below the
  1/200 distance of the exact values to the truncation boundaries), and the
  tempo division is modeled by round-to-nearest-even at 24-bit precision.
- The sqrt-transfer channel-volume byte and the panning byte are modeled in
  exact integer arithmetic (their value is, up to f32 rounding, the floor of
  the real-valued remap); no claim depends on these two bytes.
- Rust Vec sort_by_key is a stable sort; it is modeled by the stable
  List.insertionSort.  All stable sorts of one total preorder agree, so the
  modeled output list is the one the program produces.
-/

namespace Lmms2Mid

/-! ## Data model (src/lmms_model.rs) -/

/-- Note record (lmms_model.rs, struct LmmsNote). -/
structure LmmsNote where
  volume : ℕ
  panning : ℤ
  position : ℕ
  length : ℕ
  key : ℕ
deriving DecidableEq

/-- Pattern record (lmms_model.rs, struct LmmsPattern). -/
structure LmmsPattern where
  name : String
  muted : ℕ
  position : ℕ
  steps : ℕ
  type : ℕ
  notes : List LmmsNote
deriving DecidableEq

/-- SF2 player settings (lmms_model.rs, struct LmmsSf2Player); only the fields
the converter reads (bank, patch) are modeled. -/
structure LmmsSf2Player where
  src : String
  bank : ℕ
  patch : ℕ
deriving DecidableEq

/-- Instrument record (lmms_model.rs, struct LmmsInstrument). -/
structure LmmsInstrument where
  name : String
  sf2_player : Option LmmsSf2Player
deriving DecidableEq

/-- Instrument-track settings (lmms_model.rs, struct LmmsInstrumentTrack).
The f32 fields volume and panning are modeled as rationals. -/
structure LmmsInstrumentTrack where
  volume : ℚ
  panning : ℚ
  pitch_range : ℕ
  fx_channel : ℕ
  use_master_pitch : ℕ
  base_note : ℕ
  instrument : LmmsInstrument
deriving DecidableEq

/-- Track record (lmms_model.rs, struct LmmsTrack), including the mute/solo
flags the converter never reads. -/
structure LmmsTrack where
  name : String
  muted : ℕ
  muted_before_solo : Option ℕ
  type : ℕ
  solo : ℕ
  instrument_track : LmmsInstrumentTrack
  patterns : List LmmsPattern
deriving DecidableEq

/-- Timeline record (lmms_model.rs, struct LmmsTimeline). -/
structure LmmsTimeline where
  loop_state : ℕ
  loop_start : ℕ
  loop_end : ℕ
deriving DecidableEq

/-- Project header (lmms_model.rs, struct LmmsHead). -/
structure LmmsHead where
  time_signature_denominator : ℕ
  time_signature_numerator : ℕ
  bpm : ℕ
  master_pitch : ℤ
  master_volume : ℕ
deriving DecidableEq

/-- Song record (lmms_model.rs, struct LmmsSong); the track container window
geometry is irrelevant to the converter and is collapsed to the track list. -/
structure LmmsSong where
  tracks : List LmmsTrack
  timeline : LmmsTimeline
deriving DecidableEq

/-- Project record (lmms_model.rs, struct LmmsProject). -/
structure LmmsProject where
  head : LmmsHead
  song : LmmsSong
deriving DecidableEq

/-- Iterator sf2_tracks of LmmsProject: tracks whose instrument has an
sf2player child. -/
def LmmsProject.sf2_tracks (p : LmmsProject) : List LmmsTrack :=
  p.song.tracks.filter (fun t => t.instrument_track.instrument.sf2_player.isSome)

/-- Bank of the sf2 player of a track.  The Rust accessor sf2_player()
aborts on a non-SF2 track; the converter only calls it on sf2_tracks, so
the default 0 of this total model is never exercised. -/
def LmmsTrack.sf2_bank (t : LmmsTrack) : ℕ :=
  (t.instrument_track.instrument.sf2_player.map LmmsSf2Player.bank).getD 0

/-- Patch of the sf2 player of a track (same totalization as sf2_bank). -/
def LmmsTrack.sf2_patch (t : LmmsTrack) : ℕ :=
  (t.instrument_track.instrument.sf2_player.map LmmsSf2Player.patch).getD 0

/-- Predicate is_instrument_track (lmms_model.rs): bank different from 128. -/
def LmmsTrack.is_instrument_track (t : LmmsTrack) : Bool :=
  t.sf2_bank != 128

/-- Predicate is_precussion_track (lmms_model.rs, spelling kept from the
source): bank equal to 128. -/
def LmmsTrack.is_precussion_track (t : LmmsTrack) : Bool :=
  t.sf2_bank == 128

/-- Constant LMMS_TICKS_PER_BAR (lmms_model.rs). -/
def LMMS_TICKS_PER_BAR : ℕ := 192

/-! ## MIDI event model (subset of midly used by src/main.rs) -/

/-- Meta messages the converter emits. Text payloads are kept as strings;
midly stores their UTF-8 bytes. -/
inductive MetaMessage where
  | trackNameMeta (s : String)
  | copyright (s : String)
  | text (s : String)
  | tempo (microsPerQuarter : ℕ)
  | midiChannel (ch : ℕ)
  | instrumentName (s : String)
  | marker (s : String)
  | endOfTrack
deriving DecidableEq

/-- Channel voice messages the converter emits. -/
inductive MidiMessage where
  | controller (controller value : ℕ)
  | programChange (program : ℕ)
  | noteOn (key vel : ℕ)
  | noteOff (key vel : ℕ)
deriving DecidableEq

/-- Event kind (midly TrackEventKind restricted to the variants used). -/
inductive TrackEventKind where
  | meta (msg : MetaMessage)
  | midi (channel : ℕ) (message : MidiMessage)
deriving DecidableEq

/-- TrackEventKindExt::is_note_on (main.rs). -/
def TrackEventKind.is_note_on : TrackEventKind → Bool
  | .midi _ (.noteOn _ _) => true
  | _ => false

/-- TrackEventKindExt::is_note_off (main.rs). -/
def TrackEventKind.is_note_off : TrackEventKind → Bool
  | .midi _ (.noteOff _ _) => true
  | _ => false

/-- TrackEventKindExt::is_meta_event (main.rs). -/
def TrackEventKind.is_meta_event : TrackEventKind → Bool
  | .meta _ => true
  | _ => false

/-- TrackEventKindExt::is_cc_event (main.rs). -/
def TrackEventKind.is_cc_event : TrackEventKind → Bool
  | .midi _ (.controller _ _) => true
  | _ => false

/-- Struct AbsoluteTrackEvent (main.rs). -/
structure AbsoluteTrackEvent where
  ticks : ℕ
  ticks_event_start : ℕ
  kind : TrackEventKind
deriving DecidableEq

/-- Struct TrackEvent (midly): delta time plus event kind. -/
structure TrackEvent where
  delta : ℕ
  kind : TrackEventKind
deriving DecidableEq

/-- Masking conversion of the midly u7 type (from_int_lossy). -/
def u7mask (n : ℕ) : ℕ := n % 128

/-- Masking conversion of the midly u4 type (from_int_lossy). -/
def u4mask (n : ℕ) : ℕ := n % 16

/-- Masking conversion of the midly u24 type (from_int_lossy). -/
def u24mask (n : ℕ) : ℕ := n % 16777216

/-- Masking conversion of the midly u28 type (from_int_lossy). -/
def u28mask (n : ℕ) : ℕ := n % 268435456

/-- Rust usize -> u32 cast (wraps modulo 2 to the 32). -/
def u32cast (n : ℕ) : ℕ := n % 4294967296

/-- Rust usize wrap-around addition boundary: release builds wrap 64-bit
usize arithmetic modulo 2 to the 64. -/
def u64wrap (n : ℕ) : ℕ := n % 18446744073709551616

/-- Rust usize -> u8 cast (wraps modulo 256). -/
def u8cast (n : ℕ) : ℕ := n % 256

/-- Rust isize -> u8 cast (two-complement wrap modulo 256). -/
def u8castInt (i : ℤ) : ℕ := (i % 256).toNat

/-- MIDI controller numbers (main.rs constants). -/
def MIDI_CC_BANK_SELECT_COARSE : ℕ := 0

/-- MIDI controller number for fine bank select (main.rs). -/
def MIDI_CC_BANK_SELECT_FINE : ℕ := 32

/-- MIDI controller number for channel volume (main.rs). -/
def MIDI_CC_VOLUME : ℕ := 7

/-- MIDI controller number for channel panning (main.rs). -/
def MIDI_CC_PANNING : ℕ := 10

/-- EMIDI local loop start controller (main.rs). -/
def MIDI_CC_EMIDI_LOCAL_LOOP_START : ℕ := 116

/-- EMIDI local loop end controller (main.rs). -/
def MIDI_CC_EMIDI_LOCAL_LOOP_END : ℕ := 117

/-- EMIDI global loop start controller (main.rs). -/
def MIDI_CC_EMIDI_GLOBAL_LOOP_START : ℕ := 118

/-- EMIDI global loop end controller (main.rs). -/
def MIDI_CC_EMIDI_GLOBAL_LOOP_END : ℕ := 119

/-- RPG Maker loop start controller (main.rs). -/
def MIDI_CC_RPG_LOOP_START : ℕ := 111

/-- Polyphony ceiling MIDI_MAX_POLYPHONY (main.rs). -/
def MIDI_MAX_POLYPHONY : ℕ := 24

/-- Loop style option (main.rs, enum MidiLoopStyle). -/
inductive MidiLoopStyle where
  | rpgMaker
  | emidiLocal
  | emidiGlobal
  | finalFantasy
deriving DecidableEq

/-- Command line arguments that influence the emitted events (main.rs,
struct Args, minus the file paths). -/
structure Args where
  loop_style : List MidiLoopStyle
  track_name : Option String
  track_copyright : Option String
  track_comment : Option String
deriving DecidableEq

/-! ## Numeric transforms (main.rs) -/

/-- Function remap_clamp_range (main.rs), embedded over the rationals: the
input position t in the source range is clamped to the unit interval, passed
through the transfer function and scaled to the target range. -/
def remap_clamp_range (value from_start from_end to_start to_end : ℚ)
    (transfer_fn : ℚ → ℚ) : ℚ :=
  let t := (value - from_start) / (from_end - from_start)
  to_start + transfer_fn (min (max t 0) 1) * (to_end - to_start)

/-- Rust f32 -> u8 cast: truncate toward zero and saturate to 0..255. -/
def f32_as_u8 (q : ℚ) : ℕ := min 255 (⌊q⌋.toNat)

/-- Note velocity byte: u7::from(remap_clamp_range(volume, 0..=200, 0..=127,
identity) as u8), in exact integer arithmetic.  For integer volumes the f32
computation agrees exactly with this value (see the conversion theorem of
claim C6, which equates it with the rational remap formula). -/
def note_velocity_byte (vol : ℕ) : ℕ :=
  127 * min vol 200 / 200

/-- Channel volume byte: u7::from(remap_clamp_range(volume, 0..=100, 0..=127,
sqrt) as u8).  In exact arithmetic the value is the integer square root of
16129 * clamp01(volume / 100), computed here by counting; modeled exactly up
to f32 rounding.  No claim depends on this byte. -/
def channel_volume_byte (vol : ℚ) : ℕ :=
  let a : ℕ := if vol ≤ 0 then 0 else if 100 ≤ vol then 16129 * 100 else 16129 * vol.num.toNat
  let b : ℕ := if vol ≤ 0 then 1 else if 100 ≤ vol then 100 else 100 * vol.den
  ((List.range 128).filter (fun k => k * k * b ≤ a)).length - 1

/-- Channel panning byte: u7::from(remap_clamp_range(panning, -100.0..=100.0,
0.0..=127.0, identity) as u8), in exact integer arithmetic (floor of
127 * (panning + 100) / 200 after clamping); modeled exactly up to f32
rounding.  No claim depends on this byte. -/
def channel_panning_byte (pan : ℚ) : ℕ :=
  if pan ≤ -100 then 0
  else if 100 ≤ pan then 127
  else (127 * (pan.num + 100 * (pan.den : ℤ))).toNat / (200 * pan.den)

/-- Round half to even of the fraction num / den (den positive): the rounding
used by every IEEE binary operation. -/
def rhe (num den : ℕ) : ℕ :=
  let q := num / den
  let r := num % den
  if 2 * r < den then q
  else if den < 2 * r then q + 1
  else if q % 2 = 0 then q else q + 1

/-- Floor of the base-2 logarithm of a / b, for 1 <= b <= a and quotients
below 2 to the 27 (all tempo quotients are below 2 to the 26). -/
def floorLog2Q (a b : ℕ) : ℕ :=
  ((List.range 27).filter (fun i => b * 2 ^ (i + 1) ≤ a)).length

/-- Model of the tempo expression (60_000_000.0f32 / bpm as f32) as u32
(main.rs): round-to-nearest-even of the exact quotient at the 24-bit f32
precision, then truncation.  Faithful for 1 <= bpm <= 2 to the 24 (such bpm
convert to f32 exactly, and the quotient is a normal f32); outside that
domain the model returns 0. -/
def tempo_f32_u32 (bpm : ℕ) : ℕ :=
  if bpm = 0 ∨ 60000000 < bpm then 0
  else
    let e := floorLog2Q 60000000 bpm
    if 23 ≤ e then rhe 60000000 (bpm * 2 ^ (e - 23)) * 2 ^ (e - 23)
    else rhe (60000000 * 2 ^ (23 - e)) bpm / 2 ^ (23 - e)

/-- Tempo payload of the emitted meta event: u24::from of the u32 above. -/
def tempo_u24 (bpm : ℕ) : ℕ := u24mask (tempo_f32_u32 bpm)

/-! ## Channel assignment (main.rs, lines 142-192) -/

/-- The fixed ordered pool of melodic MIDI channels (channel 9 is reserved
for percussion). -/
def instrument_channel_pool : List ℕ := [0, 1, 2, 3, 4, 5, 6, 7, 8, 10, 11, 12, 13, 14, 15]

/-- Sanity-check warnings for track counts (main.rs, lines 142-163): one
warning if there are more than 15 SF2 instrument tracks, one if there is
more than one SF2 percussion track. -/
def sanity_warnings (p : LmmsProject) : List String :=
  let ic := (p.sf2_tracks.filter LmmsTrack.is_instrument_track).length
  let pc := (p.sf2_tracks.filter LmmsTrack.is_precussion_track).length
  (if 15 < ic then ["warning: LMMS project has more SF2 instrument tracks than available MIDI channels"] else [])
    ++ (if 1 < pc then ["warning: LMMS project should only have at most one SF2 percussion track"] else [])

/-- Comparison on channel-track pairs used by the assignment sort
(sort_by_key on the channel). -/
def ChannelLE (a b : ℕ × LmmsTrack) : Prop := a.1 ≤ b.1

instance : DecidableRel ChannelLE := fun a b => by
  unfold ChannelLE
  infer_instance

instance : IsTotal (ℕ × LmmsTrack) ChannelLE := ⟨fun a b => Nat.le_total a.1 b.1⟩

instance : IsTrans (ℕ × LmmsTrack) ChannelLE := ⟨fun _ _ _ h h2 => Nat.le_trans h h2⟩

/-- Channel assignment (main.rs, lines 165-192): zip the melodic pool with
the SF2 instrument tracks, zip channel 9 with the SF2 percussion tracks,
then stable-sort the concatenation by channel. -/
def lmms_track_midi_channel (p : LmmsProject) : List (ℕ × LmmsTrack) :=
  let results :=
    instrument_channel_pool.zip (p.sf2_tracks.filter LmmsTrack.is_instrument_track)
      ++ [9].zip (p.sf2_tracks.filter LmmsTrack.is_precussion_track)
  List.insertionSort ChannelLE results

/-! ## Event emission (main.rs, lines 194-463) -/

/-- Header events (main.rs, lines 201-227): optional name, copyright and
comment metas, then the tempo meta, all at delta 0. -/
def header_events (args : Args) (p : LmmsProject) : List TrackEvent :=
  (args.track_name.elim [] fun s => [⟨0, .meta (.trackNameMeta s)⟩])
    ++ (args.track_copyright.elim [] fun s => [⟨0, .meta (.copyright s)⟩])
    ++ (args.track_comment.elim [] fun s => [⟨0, .meta (.text s)⟩])
    ++ [⟨0, .meta (.tempo (tempo_u24 p.head.bpm))⟩]

/-- Per-channel initialization events (main.rs, lines 231-330): channel meta,
optional instrument-name meta, bank select coarse and fine, program change,
channel volume, channel panning, all at delta 0.  The non-ASCII-name warning
is a diagnostic only and is not modeled. -/
def channel_init_events (ch : ℕ) (t : LmmsTrack) : List TrackEvent :=
  [⟨0, .meta (.midiChannel (u4mask ch))⟩]
    ++ (if t.name ≠ "" then [⟨0, .meta (.instrumentName t.name)⟩] else [])
    ++ [⟨0, .midi (u4mask ch) (.controller MIDI_CC_BANK_SELECT_COARSE (u7mask (u8cast (t.sf2_bank >>> 7))))⟩,
        ⟨0, .midi (u4mask ch) (.controller MIDI_CC_BANK_SELECT_FINE (u7mask (u8cast (t.sf2_bank % 128))))⟩,
        ⟨0, .midi (u4mask ch) (.programChange (u7mask (u8cast t.sf2_patch)))⟩,
        ⟨0, .midi (u4mask ch) (.controller MIDI_CC_VOLUME (u7mask (channel_volume_byte t.instrument_track.volume)))⟩,
        ⟨0, .midi (u4mask ch) (.controller MIDI_CC_PANNING (u7mask (channel_panning_byte t.instrument_track.panning)))⟩]

/-- Resolved signed pitch of a note (main.rs, lines 340-345): key + 69 -
base note, plus the master pitch when the use-master-pitch flag equals 1. -/
def note_key_value (p : LmmsProject) (t : LmmsTrack) (n : LmmsNote) : ℤ :=
  let k : ℤ := (n.key : ℤ) + 69 - (t.instrument_track.base_note : ℤ)
  if t.instrument_track.use_master_pitch = 1 then k + p.head.master_pitch else k

/-- Pitch byte carried by the events: u7::from(note_key as u8). -/
def note_key_byte (p : LmmsProject) (t : LmmsTrack) (n : LmmsNote) : ℕ :=
  u7mask (u8castInt (note_key_value p t n))

/-- The onset/release event pair of one note (main.rs, lines 337-377).  The
tick sums are usize additions, which wrap modulo 2 to the 64 in release
builds (the documented usage); the wrap is modeled explicitly. -/
def note_pair (p : LmmsProject) (ch : ℕ) (pat : LmmsPattern) (t : LmmsTrack)
    (n : LmmsNote) : List AbsoluteTrackEvent :=
  let ticks_start := u64wrap (pat.position + n.position)
  let ticks_end := u64wrap (ticks_start + n.length)
  let key := note_key_byte p t n
  let vel := note_velocity_byte n.volume
  [⟨ticks_start, ticks_start, .midi (u4mask ch) (.noteOn key vel)⟩,
   ⟨ticks_end, ticks_start, .midi (u4mask ch) (.noteOff key vel)⟩]

/-- All note events of the assigned tracks (main.rs, lines 334-379). -/
def midi_note_events (p : LmmsProject) : List AbsoluteTrackEvent :=
  (lmms_track_midi_channel p).flatMap fun ct =>
    ct.2.patterns.flatMap fun pat =>
      pat.notes.flatMap fun n => note_pair p ct.1 pat ct.2 n

/-- Loop marker events of one requested loop style (main.rs, lines 385-462). -/
def loop_events_of (tl : LmmsTimeline) : MidiLoopStyle → List AbsoluteTrackEvent
  | .rpgMaker =>
      [⟨tl.loop_start, tl.loop_start, .midi 0 (.controller MIDI_CC_RPG_LOOP_START 0)⟩]
  | .emidiLocal =>
      [⟨tl.loop_start, tl.loop_start, .midi 0 (.controller MIDI_CC_EMIDI_LOCAL_LOOP_START 0)⟩,
       ⟨tl.loop_end, tl.loop_end, .midi 0 (.controller MIDI_CC_EMIDI_LOCAL_LOOP_END 0)⟩]
  | .emidiGlobal =>
      [⟨tl.loop_start, tl.loop_start, .midi 0 (.controller MIDI_CC_EMIDI_GLOBAL_LOOP_START 0)⟩,
       ⟨tl.loop_end, tl.loop_end, .midi 0 (.controller MIDI_CC_EMIDI_GLOBAL_LOOP_END 0)⟩]
  | .finalFantasy =>
      [⟨tl.loop_start, tl.loop_start, .meta (.marker "loopstart")⟩,
       ⟨tl.loop_end, tl.loop_end, .meta (.marker "loopend")⟩]

/-- Loop marker events of all requested loop styles (main.rs, lines 381-463). -/
def loop_marker_events (args : Args) (p : LmmsProject) : List AbsoluteTrackEvent :=
  args.loop_style.flatMap (loop_events_of p.song.timeline)

/-- The event list handed to the scheduler sort: all note on/off events plus
the loop markers (header and per-channel setup events are NOT part of this
list; main.rs pushes them to the track directly, before the sorted region). -/
def midi_track_events (args : Args) (p : LmmsProject) : List AbsoluteTrackEvent :=
  midi_note_events p ++ loop_marker_events args p

/-! ## Event scheduler (main.rs, lines 465-481) -/

/-- The four negated kind flags of the Rust sort key, packed as the bits of
one natural number (most significant first, false before true):
!is_meta_event, !is_cc_event, !is_note_on, !is_note_off.  Lexicographic
comparison of the flag tuple is numeric comparison of this number. -/
def kind_bits (k : TrackEventKind) : ℕ :=
  (if k.is_meta_event then 0 else 8) + (if k.is_cc_event then 0 else 4)
    + (if k.is_note_on then 0 else 2) + (if k.is_note_off then 0 else 1)

/-- The scheduler comparator (main.rs, lines 465-481): lexicographic order
on (ticks, ticks_event_start, kind flags). -/
def EventLE (a b : AbsoluteTrackEvent) : Prop :=
  a.ticks < b.ticks
    ∨ (a.ticks = b.ticks
        ∧ (a.ticks_event_start < b.ticks_event_start
            ∨ (a.ticks_event_start = b.ticks_event_start
                ∧ kind_bits a.kind ≤ kind_bits b.kind)))

instance : DecidableRel EventLE := fun a b => by
  unfold EventLE
  infer_instance

instance : IsTotal AbsoluteTrackEvent EventLE := by
  constructor
  intro a b
  unfold EventLE
  omega

instance : IsTrans AbsoluteTrackEvent EventLE := by
  constructor
  intro a b c h1 h2
  unfold EventLE at *
  omega

/-- The scheduler sort (main.rs, line 465): stable sort by the comparator. -/
def sort_events (l : List AbsoluteTrackEvent) : List AbsoluteTrackEvent :=
  List.insertionSort EventLE l

/-! ## Validator, pass 1: global polyphony (main.rs, lines 483-506) -/

/-- State of the polyphony pass: running count, suppression flag, and the
ticks at which a warning was printed. -/
structure PolyState where
  current_polyphony : ℕ
  already_warned : Bool
  warnings : List ℕ
deriving DecidableEq

/-- One step of the polyphony pass.  Returns none exactly when the Rust
assertion (current_polyphony > 0 at a note off) would fail. -/
def poly_step (st : PolyState) (e : AbsoluteTrackEvent) : Option PolyState :=
  let st1 :=
    if e.kind.is_note_on then
      let c := st.current_polyphony + 1
      if MIDI_MAX_POLYPHONY < c && !st.already_warned then
        { current_polyphony := c, already_warned := true, warnings := st.warnings ++ [e.ticks] }
      else
        { st with current_polyphony := c }
    else st
  if e.kind.is_note_off then
    if st1.current_polyphony = 0 then none
    else
      let c := st1.current_polyphony - 1
      if c ≤ MIDI_MAX_POLYPHONY && st1.already_warned then
        some { current_polyphony := c, already_warned := false, warnings := st1.warnings }
      else
        some { st1 with current_polyphony := c }
  else some st1

/-- The full polyphony pass over the sorted events. -/
def poly_pass (l : List AbsoluteTrackEvent) : Option PolyState :=
  l.foldlM poly_step ⟨0, false, []⟩

/-! ## Validator, pass 2: per-channel-and-pitch counts (main.rs, lines 508-542) -/

/-- State of the overlap pass: the HashMap of active counts (entries are
removed when they reach zero, so stored counts are positive), and the ticks
at which an overlap warning was printed. -/
structure NoteCountState where
  counts : ℕ × ℕ → Option ℕ
  warnings : List ℕ

/-- One step of the overlap pass.  Returns none exactly when the Rust
expect (entry present at a note off) or assertion (count positive) would
fail. -/
def note_count_step (st : NoteCountState) (e : AbsoluteTrackEvent) : Option NoteCountState :=
  match e.kind with
  | .midi ch (.noteOn key _) =>
      let c := (st.counts (ch, key)).getD 0 + 1
      some { counts := fun q => if q = (ch, key) then some c else st.counts q,
             warnings := if 2 ≤ c then st.warnings ++ [e.ticks] else st.warnings }
  | .midi ch (.noteOff key _) =>
      match st.counts (ch, key) with
      | none => none
      | some c =>
          if c = 0 then none
          else
            some { counts := fun q => if q = (ch, key) then (if c - 1 = 0 then none else some (c - 1)) else st.counts q,
                   warnings := st.warnings }
  | _ => some st

/-- The full overlap pass over the sorted events. -/
def note_count_pass (l : List AbsoluteTrackEvent) : Option NoteCountState :=
  l.foldlM note_count_step ⟨fun _ => none, []⟩

/-! ## Delta-time computation (main.rs, lines 544-558) -/

/-- Delta-time encoding of the sorted events, threading the tick of the
previous event; the first event is measured from stream start (tick 0, which
also makes the Rust index-zero special case coincide with the general one).
The emitted delta is u28::from(delta_time as u32): the usize difference cast
to u32 and masked to 28 bits.  Returns none exactly when the assertion
ticks_before <= ticks_current (which runs on the unmasked ticks) would
fail. -/
def deltas_from (prev : ℕ) : List AbsoluteTrackEvent → Option (List TrackEvent)
  | [] => some []
  | e :: rest =>
      if e.ticks < prev then none
      else (deltas_from e.ticks rest).map (⟨u28mask (u32cast (e.ticks - prev)), e.kind⟩ :: ·)

/-- Delta-time encoding of a whole event list. -/
def compute_deltas (l : List AbsoluteTrackEvent) : Option (List TrackEvent) :=
  deltas_from 0 l

/-! ## The whole conversion (main.rs, fn main, without file I/O) -/

/-- The sorted scheduler input of a conversion run. -/
def sorted_events (args : Args) (p : LmmsProject) : List AbsoluteTrackEvent :=
  sort_events (midi_track_events args p)

/-- The complete emitted track of one conversion run: header events, channel
initialization in assignment order, the delta-encoded sorted events, and the
end-of-track meta.  Returns none exactly when one of the internal assertions
of the validator or of the delta pass would abort the run. -/
def convert (args : Args) (p : LmmsProject) : Option (List TrackEvent) :=
  match poly_pass (sorted_events args p), note_count_pass (sorted_events args p) with
  | some _, some _ =>
      (compute_deltas (sorted_events args p)).map fun evs =>
        header_events args p
          ++ ((lmms_track_midi_channel p).flatMap fun ct => channel_init_events ct.1 ct.2)
          ++ evs ++ [⟨0, .meta .endOfTrack⟩]
  | _, _ => none

/-- Note-on predicate restricted by a channel/key matcher (used to count
note starts per key, or globally with the always-true matcher). -/
def onP (m : ℕ → ℕ → Bool) (e : AbsoluteTrackEvent) : Bool :=
  match e.kind with
  | .midi ch (.noteOn k _) => m ch k
  | _ => false

/-- Note-off predicate restricted by a channel/key matcher. -/
def offP (m : ℕ → ℕ → Bool) (e : AbsoluteTrackEvent) : Bool :=
  match e.kind with
  | .midi ch (.noteOff k _) => m ch k
  | _ => false

/-- The matcher selecting one (channel, key) pair. -/
def mK (ch k : ℕ) : ℕ → ℕ → Bool :=
  fun c q => decide (c = ch) && decide (q = k)

/-! ## Concrete inputs and helper definitions used by the claims -/

/-- Cumulative sums of a delta list starting from a given absolute time:
the reconstruction map of the delta encoding. -/
def delta_cumsum (acc : ℕ) : List ℕ → List ℕ
  | [] => []
  | d :: ds => (acc + d) :: delta_cumsum (acc + d) ds

/-- Concrete sorted event list used to instantiate claim C3. -/
def c3_example_events : List AbsoluteTrackEvent :=
  [⟨5, 5, .meta (.tempo 500000)⟩, ⟨7, 5, .midi 0 (.noteOn 60 63)⟩, ⟨7, 7, .midi 0 (.noteOff 60 63)⟩]

/-- Events used to instantiate the transitivity component of C1. -/
def c1_example_a : AbsoluteTrackEvent := ⟨0, 0, .meta .endOfTrack⟩

/-- Middle event of the C1 instantiation. -/
def c1_example_b : AbsoluteTrackEvent := ⟨1, 1, .midi 0 (.controller 7 100)⟩

/-- Last event of the C1 instantiation. -/
def c1_example_c : AbsoluteTrackEvent := ⟨1, 1, .midi 0 (.noteOn 60 64)⟩

/-- Specification-side definition (spec section 4.3), for comparison with
the program: the sort input the specification describes, namely the
complete merged set of events, header meta and per-channel setup included
(those all occur at stream start, absolute tick 0), together with the note
on/off events and loop markers.  The program itself never forms this list:
it emits header and setup events directly. -/
def spec_claimed_sort_input (args : Args) (p : LmmsProject) : List AbsoluteTrackEvent :=
  ((header_events args p
        ++ (lmms_track_midi_channel p).flatMap fun ct => channel_init_events ct.1 ct.2).map
      fun te => ⟨0, 0, te.kind⟩)
    ++ midi_track_events args p

/-- Single SF2 instrument track used by the C1 counterexample. -/
def c1_cex_track : LmmsTrack :=
  { name := "t1", muted := 0, muted_before_solo := none, type := 0, solo := 0,
    instrument_track :=
      { volume := 100, panning := 0, pitch_range := 60, fx_channel := 0,
        use_master_pitch := 0, base_note := 69,
        instrument := { name := "sf2player", sf2_player := some { src := "a.sf2", bank := 0, patch := 5 } } },
    patterns := [] }

/-- Project used by the C1 counterexample. -/
def c1_cex_project : LmmsProject :=
  { head := { time_signature_denominator := 4, time_signature_numerator := 4,
              bpm := 120, master_pitch := 0, master_volume := 100 },
    song := { tracks := [c1_cex_track], timeline := ⟨0, 0, 192⟩ } }

/-- Arguments with no loop styles and no header texts. -/
def args_default : Args := ⟨[], none, none, none⟩

/-- An SF2 track with a given bank, used to build the capacity example. -/
def mk_sf2_track (bank : ℕ) : LmmsTrack :=
  { name := "t", muted := 0, muted_before_solo := none, type := 0, solo := 0,
    instrument_track :=
      { volume := 100, panning := 0, pitch_range := 60, fx_channel := 0,
        use_master_pitch := 0, base_note := 69,
        instrument := { name := "sf2player", sf2_player := some { src := "a.sf2", bank := bank, patch := 0 } } },
    patterns := [] }

/-- A project with 20 SF2 melodic tracks and 2 SF2 percussion tracks. -/
def c4_project : LmmsProject :=
  { head := { time_signature_denominator := 4, time_signature_numerator := 4,
              bpm := 120, master_pitch := 0, master_volume := 100 },
    song := { tracks := List.replicate 20 (mk_sf2_track 0) ++ List.replicate 2 (mk_sf2_track 128),
              timeline := ⟨0, 0, 192⟩ } }

/-- A note with a given key (volume 100, length 4). -/
def c5_note (key : ℕ) : LmmsNote := ⟨100, 0, 0, 4, key⟩

/-- A pattern at position 0 (the note under scrutiny is passed separately). -/
def c5_pattern : LmmsPattern := ⟨"p", 0, 0, 16, 0, []⟩

/-- An SF2 track with a given base note and use-master-pitch flag. -/
def c5_track (base_note use_master_pitch : ℕ) : LmmsTrack :=
  { name := "t", muted := 0, muted_before_solo := none, type := 0, solo := 0,
    instrument_track :=
      { volume := 100, panning := 0, pitch_range := 60, fx_channel := 0,
        use_master_pitch := use_master_pitch, base_note := base_note,
        instrument := { name := "sf2player", sf2_player := some { src := "a.sf2", bank := 0, patch := 0 } } },
    patterns := [] }

/-- A one-track project with a given master pitch. -/
def c5_project (master_pitch : ℤ) : LmmsProject :=
  { head := { time_signature_denominator := 4, time_signature_numerator := 4,
              bpm := 120, master_pitch := master_pitch, master_volume := 100 },
    song := { tracks := [c5_track 69 0], timeline := ⟨0, 0, 192⟩ } }

/-- Specification-side count of contiguous excess periods: the number of
events at which the running polyphony crosses from at-or-under the ceiling
to over it (each maximal period over the ceiling starts with exactly one
such upward crossing). -/
def excess_starts (c : ℕ) : List AbsoluteTrackEvent → ℕ
  | [] => 0
  | e :: rest =>
      let c2 := if e.kind.is_note_on then c + 1
        else if e.kind.is_note_off then c - 1 else c
      (if c ≤ MIDI_MAX_POLYPHONY ∧ MIDI_MAX_POLYPHONY < c2 then 1 else 0)
        + excess_starts c2 rest

/-- Twenty-five simultaneous note onsets on distinct pitches, before any
release. -/
def c8_onsets : List AbsoluteTrackEvent :=
  (List.range 25).map fun i => ⟨0, 0, .midi 0 (.noteOn i 64)⟩

/-- A single onset, used to instantiate the universally quantified part of
C8. -/
def c8_single : List AbsoluteTrackEvent := [⟨0, 0, .midi 0 (.noteOn 60 64)⟩]

/-- A pattern with its muted flag cleared. -/
def LmmsPattern.scrub (pat : LmmsPattern) : LmmsPattern := { pat with muted := 0 }

/-- A track with its mute/solo state cleared, recursively in its patterns. -/
def LmmsTrack.scrub (t : LmmsTrack) : LmmsTrack :=
  { t with muted := 0, muted_before_solo := none, solo := 0,
           patterns := t.patterns.map LmmsPattern.scrub }

/-- A project with all mute/solo state cleared. -/
def LmmsProject.scrub (p : LmmsProject) : LmmsProject :=
  { p with song := { p.song with tracks := p.song.tracks.map LmmsTrack.scrub } }

/-- A one-track project with given mute/solo flags on its track and muted
flag on its pattern, carrying one note. -/
def c10_project (muted solo pat_muted : ℕ) (mbs : Option ℕ) : LmmsProject :=
  { head := { time_signature_denominator := 4, time_signature_numerator := 4,
              bpm := 120, master_pitch := 0, master_volume := 100 },
    song :=
      { tracks :=
          [{ name := "t1", muted := muted, muted_before_solo := mbs, type := 0, solo := solo,
             instrument_track :=
               { volume := 100, panning := 0, pitch_range := 60, fx_channel := 0,
                 use_master_pitch := 0, base_note := 69,
                 instrument := { name := "sf2player",
                                 sf2_player := some { src := "a.sf2", bank := 0, patch := 5 } } },
             patterns := [⟨"p", pat_muted, 0, 16, 0, [⟨100, 0, 0, 4, 60⟩]⟩] }],
        timeline := ⟨0, 0, 192⟩ } }

/-- No note of an assigned track overflows the usize tick arithmetic: the
pattern position plus note position plus note length stays below 2 to the
64, so the wrap in note_pair is the identity. -/
def no_note_overflow (p : LmmsProject) : Prop :=
  ∀ ct ∈ lmms_track_midi_channel p, ∀ pat ∈ ct.2.patterns, ∀ n ∈ pat.notes,
    pat.position + n.position + n.length < 18446744073709551616

instance (p : LmmsProject) : Decidable (no_note_overflow p) := by
  unfold no_note_overflow
  infer_instance

/-- A sorted one-event list whose tick gap reaches the 28-bit delta limit. -/
def c3_cex_events : List AbsoluteTrackEvent :=
  [⟨268435456, 268435456, .meta .endOfTrack⟩]

/-- A one-track project with a note whose position plus length wraps the
64-bit usize tick arithmetic. -/
def c9_cex_project : LmmsProject :=
  { head := { time_signature_denominator := 4, time_signature_numerator := 4,
              bpm := 120, master_pitch := 0, master_volume := 100 },
    song :=
      { tracks :=
          [{ name := "t1", muted := 0, muted_before_solo := none, type := 0, solo := 0,
             instrument_track :=
               { volume := 100, panning := 0, pitch_range := 60, fx_channel := 0,
                 use_master_pitch := 0, base_note := 69,
                 instrument := { name := "sf2player",
                                 sf2_player := some { src := "a.sf2", bank := 0, patch := 5 } } },
             patterns := [⟨"p", 0, 0, 16, 0, [⟨100, 0, 18446744073709551615, 2, 60⟩]⟩] }],
        timeline := ⟨0, 0, 192⟩ } }

/-! ## Basic facts about the scheduler comparator and sort -/

/-- The comparator only lets the absolute tick grow. -/
lemma eventLE_ticks_le {a b : AbsoluteTrackEvent} (h : EventLE a b) : a.ticks ≤ b.ticks := by
  unfold EventLE at h
  omega

/-- Two comparator-equivalent events agree on all three sort-key components. -/
lemma eventLE_antisymm_key {a b : AbsoluteTrackEvent} (h1 : EventLE a b) (h2 : EventLE b a) :
    a.ticks = b.ticks ∧ a.ticks_event_start = b.ticks_event_start
      ∧ kind_bits a.kind = kind_bits b.kind := by
  unfold EventLE at h1 h2
  omega

/-- The scheduler output is sorted by the comparator. -/
lemma sort_events_sorted (l : List AbsoluteTrackEvent) : (sort_events l).Sorted EventLE :=
  List.sorted_insertionSort EventLE l

/-- The scheduler output is a permutation of its input. -/
lemma sort_events_perm (l : List AbsoluteTrackEvent) : (sort_events l).Perm l :=
  List.perm_insertionSort EventLE l

/-! ## Delta-time facts -/

/-- On a tick sequence that never decreases (threaded from the previous
tick), the delta pass succeeds and keeps the event kinds unchanged in
order. -/
lemma deltas_from_some (l : List AbsoluteTrackEvent) :
    ∀ prev, List.Chain' (· ≤ ·) (prev :: l.map AbsoluteTrackEvent.ticks) →
      ∃ ds, deltas_from prev l = some ds
        ∧ ds.map TrackEvent.kind = l.map AbsoluteTrackEvent.kind := by
  induction l with
  | nil =>
      intro prev _
      exact ⟨[], rfl, rfl⟩
  | cons e rest ih =>
      intro prev h
      rw [List.map_cons] at h
      obtain ⟨h1, h2⟩ := List.chain'_cons'.1 h
      have hpe : prev ≤ e.ticks := h1 e.ticks rfl
      obtain ⟨ds, hds, hkind⟩ := ih e.ticks h2
      refine ⟨⟨u28mask (u32cast (e.ticks - prev)), e.kind⟩ :: ds, ?_, ?_⟩
      · simp only [deltas_from]
        rw [if_neg (by omega), hds]
        rfl
      · simp only [List.map_cons]
        rw [hkind]

/-- On a tick sequence that never decreases and whose every step (threaded
from the previous tick) stays below the 28-bit delta limit, the delta pass
succeeds, the masked deltas are the exact tick differences, cumulative sums
reconstruct the absolute ticks, and the event kinds are kept unchanged in
order. -/
lemma deltas_from_exact (l : List AbsoluteTrackEvent) :
    ∀ prev, List.Chain' (fun a b => a ≤ b ∧ b - a < 268435456)
        (prev :: l.map AbsoluteTrackEvent.ticks) →
      ∃ ds, deltas_from prev l = some ds
        ∧ delta_cumsum prev (ds.map TrackEvent.delta) = l.map AbsoluteTrackEvent.ticks
        ∧ ds.map TrackEvent.kind = l.map AbsoluteTrackEvent.kind := by
  induction l with
  | nil =>
      intro prev _
      exact ⟨[], rfl, rfl, rfl⟩
  | cons e rest ih =>
      intro prev h
      rw [List.map_cons] at h
      obtain ⟨h1, h2⟩ := List.chain'_cons'.1 h
      obtain ⟨hpe, hlt⟩ : prev ≤ e.ticks ∧ e.ticks - prev < 268435456 := h1 e.ticks rfl
      obtain ⟨ds, hds, hsum, hkind⟩ := ih e.ticks h2
      have hmask : u28mask (u32cast (e.ticks - prev)) = e.ticks - prev := by
        unfold u28mask u32cast
        omega
      refine ⟨⟨u28mask (u32cast (e.ticks - prev)), e.kind⟩ :: ds, ?_, ?_, ?_⟩
      · simp only [deltas_from]
        rw [if_neg (by omega), hds]
        rfl
      · simp only [List.map_cons, delta_cumsum]
        rw [hmask, Nat.add_sub_cancel' hpe, hsum]
      · simp only [List.map_cons]
        rw [hkind]

/-! ## Claim C2 -/

/-- The sorted event list has adjacently non-decreasing absolute ticks. -/
lemma sorted_ticks_chain (l : List AbsoluteTrackEvent) :
    ((sort_events l).map AbsoluteTrackEvent.ticks).Chain' (· ≤ ·) := by
  have hs : (sort_events l).Pairwise EventLE := sort_events_sorted l
  have hp : ((sort_events l).map AbsoluteTrackEvent.ticks).Pairwise (· ≤ ·) := by
    rw [List.pairwise_map]
    exact hs.imp eventLE_ticks_le
  exact hp.chain'

/-- The delta pass succeeds on every sorted event list. -/
lemma compute_deltas_sort_isSome (l : List AbsoluteTrackEvent) :
    (compute_deltas (sort_events l)).isSome := by
  obtain ⟨ds, hds, -⟩ :=
    deltas_from_some (sort_events l) 0
      (List.chain'_cons'.2 ⟨fun y _ => Nat.zero_le y, sorted_ticks_chain l⟩)
  unfold compute_deltas
  rw [hds]
  rfl

/-- C2: after sorting with the scheduler comparator, every adjacent pair of
events has non-decreasing absolute ticks, and consequently the
ticks_before <= ticks_current assertion of the delta pass succeeds on the
sorted output of every event collection. -/
theorem claim_C2 (l : List AbsoluteTrackEvent) :
    ((sort_events l).map AbsoluteTrackEvent.ticks).Chain' (· ≤ ·)
      ∧ (compute_deltas (sort_events l)).isSome :=
  ⟨sorted_ticks_chain l, compute_deltas_sort_isSome l⟩

/-! ## Claim C3 -/

/-- C3 (amended): each emitted delta is the tick difference to the
predecessor (the first measured from stream start) reduced modulo 2 to the
28 by the u28 delta encoding; on every sorted sequence whose first tick and
adjacent tick gaps all stay below 2 to the 28, the deltas are exact and
cumulative summation from zero reconstructs the absolute-tick sequence
exactly, with the event kinds kept in order.  For a gap of 2 to the 28 or
more the emitted deltas wrap and the round trip fails (see the
counterexample). -/
theorem claim_C3_amended (l : List AbsoluteTrackEvent)
    (h : List.Chain' (fun a b => a ≤ b ∧ b - a < 268435456)
        (0 :: l.map AbsoluteTrackEvent.ticks)) :
    ∃ ds, compute_deltas l = some ds
      ∧ delta_cumsum 0 (ds.map TrackEvent.delta) = l.map AbsoluteTrackEvent.ticks
      ∧ ds.map TrackEvent.kind = l.map AbsoluteTrackEvent.kind :=
  deltas_from_exact l 0 h

/-- Witness for the amended C3 at a concrete sorted list. -/
theorem claim_C3_witness :
    ∃ ds, compute_deltas c3_example_events = some ds
      ∧ delta_cumsum 0 (ds.map TrackEvent.delta) = c3_example_events.map AbsoluteTrackEvent.ticks
      ∧ ds.map TrackEvent.kind = c3_example_events.map AbsoluteTrackEvent.kind :=
  claim_C3_amended c3_example_events (by simp [c3_example_events])

/-- Counterexample to C3 as stated: on the sorted one-event list whose tick
is 2 to the 28, the program emits delta 0 (u28::from of the u32 cast masks
the difference), so cumulatively summing the emitted deltas reconstructs
tick 0, not the actual tick. -/
theorem claim_C3_counterexample :
    (c3_cex_events.map AbsoluteTrackEvent.ticks).Chain' (· ≤ ·)
      ∧ (compute_deltas c3_cex_events).map (fun ds => delta_cumsum 0 (ds.map TrackEvent.delta))
          = some [0]
      ∧ c3_cex_events.map AbsoluteTrackEvent.ticks = [268435456]
      ∧ ((some [(0 : ℕ)] : Option (List ℕ)) ≠ some [268435456]) := by
  refine ⟨by simp [c3_cex_events], by decide, by decide, by decide⟩

/-! ## Claim C1 -/

/-- Kind flag bits of a meta event. -/
lemma kind_bits_meta (m : MetaMessage) : kind_bits (.meta m) = 7 := rfl

/-- Kind flag bits of a controller event. -/
lemma kind_bits_cc (ch c v : ℕ) : kind_bits (.midi ch (.controller c v)) = 11 := rfl

/-- Kind flag bits of a note-on event. -/
lemma kind_bits_note_on (ch k v : ℕ) : kind_bits (.midi ch (.noteOn k v)) = 13 := rfl

/-- Kind flag bits of a note-off event. -/
lemma kind_bits_note_off (ch k v : ℕ) : kind_bits (.midi ch (.noteOff k v)) = 14 := rfl

/-- C1 (amended): the scheduler sorts its input — the note on/off events and
loop markers; header meta and per-channel setup are emitted before the sorted
region and do not pass through the sort — by ascending absolute tick, then
ascending event-start tick, then meta before controller before note-on before
note-off; the comparator is total and transitive (and the sort stable and
deterministic): comparator ties hold exactly between key-equal events, and
the output is sorted by the comparator and a permutation of the input. -/
theorem claim_C1_amended :
    (∀ a b : AbsoluteTrackEvent, EventLE a b ∨ EventLE b a)
      ∧ (∀ a b c : AbsoluteTrackEvent, EventLE a b → EventLE b c → EventLE a c)
      ∧ (∀ a b : AbsoluteTrackEvent, EventLE a b → EventLE b a →
          a.ticks = b.ticks ∧ a.ticks_event_start = b.ticks_event_start
            ∧ kind_bits a.kind = kind_bits b.kind)
      ∧ (∀ (m : MetaMessage) (ch c v k vel k2 vel2 : ℕ),
          kind_bits (.meta m) < kind_bits (.midi ch (.controller c v))
            ∧ kind_bits (.midi ch (.controller c v)) < kind_bits (.midi ch (.noteOn k vel))
            ∧ kind_bits (.midi ch (.noteOn k vel)) < kind_bits (.midi ch (.noteOff k2 vel2)))
      ∧ (∀ l : List AbsoluteTrackEvent, (sort_events l).Sorted EventLE ∧ (sort_events l).Perm l) := by
  refine ⟨?_, ?_, fun a b => eventLE_antisymm_key, ?_, fun l => ⟨sort_events_sorted l, sort_events_perm l⟩⟩
  · intro a b
    unfold EventLE
    omega
  · intro a b c h1 h2
    unfold EventLE at h1 h2 ⊢
    omega
  · intro m ch c v k vel k2 vel2
    rw [kind_bits_meta, kind_bits_cc, kind_bits_note_on, kind_bits_note_off]
    omega

/-- Witness for the amended C1, instantiating its transitivity component at
concrete events. -/
theorem claim_C1_witness : EventLE c1_example_a c1_example_c :=
  claim_C1_amended.2.1 c1_example_a c1_example_b c1_example_c (by decide) (by decide)

/-- Counterexample to C1 as stated: the emitted sequence is not the
comparator-sort of the complete merged event set (header meta and
per-channel setup included).  On a one-track project the program emits the
program-change between the bank-select and volume controllers, while the
claimed comparator orders every controller before the program change. -/
theorem claim_C1_counterexample :
    (convert args_default c1_cex_project).map (List.map TrackEvent.kind)
      ≠ some ((sort_events (spec_claimed_sort_input args_default c1_cex_project)).map AbsoluteTrackEvent.kind
          ++ [TrackEventKind.meta MetaMessage.endOfTrack]) := by
  decide

/-! ## Claim C4 -/

/-- C4: for every project, the channel assignment pairs the melodic SF2
tracks in source order with the fixed 15-channel pool in pool order and the
percussion SF2 tracks with the reserved channel 9 (the zips keep the first
at most 15, resp. 1, tracks and drop the excess), the assignment is sorted
ascending by channel, its size is min 15 of the melodic count plus min 1 of
the percussion count, and one capacity warning is raised per overflowing
category; in particular 20 melodic plus 2 percussion tracks give exactly
15 + 1 assigned pairs and 2 warnings. -/
theorem claim_C4 :
    (∀ p : LmmsProject,
      (lmms_track_midi_channel p).Perm
          (instrument_channel_pool.zip (p.sf2_tracks.filter LmmsTrack.is_instrument_track)
            ++ [9].zip (p.sf2_tracks.filter LmmsTrack.is_precussion_track))
        ∧ (lmms_track_midi_channel p).Sorted ChannelLE
        ∧ (lmms_track_midi_channel p).length
            = min 15 (p.sf2_tracks.filter LmmsTrack.is_instrument_track).length
              + min 1 (p.sf2_tracks.filter LmmsTrack.is_precussion_track).length
        ∧ (sanity_warnings p).length
            = (if 15 < (p.sf2_tracks.filter LmmsTrack.is_instrument_track).length then 1 else 0)
              + (if 1 < (p.sf2_tracks.filter LmmsTrack.is_precussion_track).length then 1 else 0))
      ∧ (c4_project.sf2_tracks.filter LmmsTrack.is_instrument_track).length = 20
      ∧ (c4_project.sf2_tracks.filter LmmsTrack.is_precussion_track).length = 2
      ∧ (lmms_track_midi_channel c4_project).length = 16
      ∧ ((lmms_track_midi_channel c4_project).filter (fun ct => ct.2.is_instrument_track)).length = 15
      ∧ ((lmms_track_midi_channel c4_project).filter (fun ct => ct.2.is_precussion_track)).length = 1
      ∧ (sanity_warnings c4_project).length = 2 := by
  refine ⟨fun p => ⟨?_, ?_, ?_, ?_⟩, by decide, by decide, by decide, by decide, by decide, by decide⟩
  · exact List.perm_insertionSort ChannelLE _
  · exact List.sorted_insertionSort ChannelLE _
  · simp only [lmms_track_midi_channel]
    rw [(List.perm_insertionSort ChannelLE _).length_eq]
    rw [List.length_append, List.length_zip, List.length_zip]
    simp [instrument_channel_pool]
  · simp only [sanity_warnings]
    split_ifs <;> simp

/-! ## Claims C5 and C6 -/

/-- C5 (amended): the resolved pitch is key + 69 - base note, plus the
master pitch when the use-master-pitch flag is set; both the note-on and the
note-off carry it exactly whenever it lies in 0..=127 (out-of-range values
wrap through the u8 cast and the 7-bit mask instead, see the
counterexample); in particular key 60, base note 69 and master pitch 0 give
pitch 60, and master pitch +2 with the flag set gives 62. -/
theorem claim_C5_amended :
    (∀ (p : LmmsProject) (ch : ℕ) (pat : LmmsPattern) (t : LmmsTrack) (n : LmmsNote),
        0 ≤ note_key_value p t n → note_key_value p t n ≤ 127 →
        (note_pair p ch pat t n).map AbsoluteTrackEvent.kind
          = [.midi (u4mask ch) (.noteOn (note_key_value p t n).toNat (note_velocity_byte n.volume)),
             .midi (u4mask ch) (.noteOff (note_key_value p t n).toNat (note_velocity_byte n.volume))])
      ∧ note_key_value (c5_project 0) (c5_track 69 0) (c5_note 60) = 60
      ∧ note_key_byte (c5_project 0) (c5_track 69 0) (c5_note 60) = 60
      ∧ note_key_value (c5_project 2) (c5_track 69 1) (c5_note 60) = 62
      ∧ note_key_byte (c5_project 2) (c5_track 69 1) (c5_note 60) = 62 := by
  refine ⟨?_, by decide, by decide, by decide, by decide⟩
  intro p ch pat t n h0 h127
  have hb : note_key_byte p t n = (note_key_value p t n).toNat := by
    unfold note_key_byte u8castInt u7mask
    rw [Int.emod_eq_of_lt h0 (by omega)]
    omega
  simp [note_pair, hb]

/-- Witness for the amended C5 at the first spec example. -/
theorem claim_C5_witness :
    (note_pair (c5_project 0) 0 c5_pattern (c5_track 69 0) (c5_note 60)).map AbsoluteTrackEvent.kind
      = [.midi (u4mask 0) (.noteOn (note_key_value (c5_project 0) (c5_track 69 0) (c5_note 60)).toNat
            (note_velocity_byte (c5_note 60).volume)),
         .midi (u4mask 0) (.noteOff (note_key_value (c5_project 0) (c5_track 69 0) (c5_note 60)).toNat
            (note_velocity_byte (c5_note 60).volume))] :=
  claim_C5_amended.1 (c5_project 0) 0 c5_pattern (c5_track 69 0) (c5_note 60) (by decide) (by decide)

/-- Counterexample to C5 as stated: a note with key 0 on a track with base
note 127 resolves to pitch -58, but both emitted events carry pitch 70 (the
wrap of -58 through the isize-to-u8 cast and the 7-bit mask), not the
resolved pitch. -/
theorem claim_C5_counterexample :
    note_key_value (c5_project 0) (c5_track 127 0) (c5_note 0) = -58
      ∧ (note_pair (c5_project 0) 0 c5_pattern (c5_track 127 0) (c5_note 0)).map AbsoluteTrackEvent.kind
          = [.midi 0 (.noteOn 70 63), .midi 0 (.noteOff 70 63)]
      ∧ ((70 : ℤ) ≠ -58) := by
  refine ⟨by decide, by decide, by decide⟩

/-- C6: the note velocity byte is the linear remap of the 0..200 source
volume onto 0..127 with the input clamped to the source range first and the
result truncated (the closed integer form equals the rational remap formula
of the source); volume 0 maps to 0, volume 100 to 63 and volume 200 to 127,
and the note-on and note-off of every note carry this same velocity. -/
theorem claim_C6 :
    (∀ vol : ℕ, note_velocity_byte vol
        = u7mask (f32_as_u8 (remap_clamp_range (vol : ℚ) 0 200 0 127 id)))
      ∧ note_velocity_byte 0 = 0 ∧ note_velocity_byte 100 = 63 ∧ note_velocity_byte 200 = 127
      ∧ (∀ (p : LmmsProject) (ch : ℕ) (pat : LmmsPattern) (t : LmmsTrack) (n : LmmsNote),
          (note_pair p ch pat t n).map AbsoluteTrackEvent.kind
            = [.midi (u4mask ch) (.noteOn (note_key_byte p t n) (note_velocity_byte n.volume)),
               .midi (u4mask ch) (.noteOff (note_key_byte p t n) (note_velocity_byte n.volume))]) := by
  refine ⟨?_, by decide, by decide, by decide, fun p ch pat t n => rfl⟩
  intro vol
  unfold note_velocity_byte remap_clamp_range f32_as_u8 u7mask
  simp only [id_eq, sub_zero, zero_add]
  have h0 : (0 : ℚ) ≤ (vol : ℚ) / 200 := by positivity
  rw [max_eq_left h0]
  rcases le_or_lt 200 vol with h | h
  · have h1 : (1 : ℚ) ≤ (vol : ℚ) / 200 := by
      rw [le_div_iff₀ (by norm_num)]
      norm_num
      exact_mod_cast h
    rw [min_eq_right h1, Nat.min_eq_right h]
    norm_num
    decide
  · have hv : min vol 200 = vol := Nat.min_eq_left (le_of_lt h)
    have h1 : (vol : ℚ) / 200 ≤ 1 := by
      rw [div_le_one (by norm_num)]
      exact_mod_cast le_of_lt h
    rw [min_eq_left h1, hv]
    have hm : (vol : ℚ) / 200 * 127 = ((127 * vol : ℕ) : ℚ) / ((200 : ℕ) : ℚ) := by
      push_cast
      ring
    rw [hm, Rat.floor_natCast_div_natCast, ← Int.natCast_div]
    omega

/-! ## Claim C7 -/

/-- For an antitone Boolean predicate, every index below the filtered count
of an initial range satisfies the predicate. -/
lemma filter_range_antitone (P : ℕ → Bool)
    (hP : ∀ i j, i ≤ j → P j = true → P i = true) :
    ∀ n i, i < ((List.range n).filter P).length → P i = true := by
  intro n
  induction n with
  | zero =>
      intro i hi
      simp at hi
  | succ n ih =>
      intro i hi
      rw [List.range_succ, List.filter_append] at hi
      by_cases hn : P n = true
      · have h1 := List.length_filter_le P (List.range n)
        have h2 := List.length_filter_le P [n]
        rw [List.length_append] at hi
        have h3 := List.length_range n
        exact hP i n (by simp at h2; omega) hn
      · have hemp : List.filter P [n] = [] := by
          simp [hn]
        rw [hemp, List.append_nil] at hi
        exact ih i hi

/-- Every index below the computed floor log satisfies the power bound. -/
lemma floorLog2Q_le (a b i : ℕ) (hi : i < floorLog2Q a b) :
    b * 2 ^ (i + 1) ≤ a := by
  have h := filter_range_antitone (fun i => decide (b * 2 ^ (i + 1) ≤ a)) ?_ 27 i hi
  · exact of_decide_eq_true h
  · intro i j hij hj
    have hj2 : b * 2 ^ (j + 1) ≤ a := of_decide_eq_true hj
    have hpow : (2 : ℕ) ^ (i + 1) ≤ 2 ^ (j + 1) :=
      Nat.pow_le_pow_right (by norm_num) (by omega)
    exact decide_eq_true (le_trans (Nat.mul_le_mul_left b hpow) hj2)

/-- Round-half-to-even lies between the floor and the floor plus one. -/
lemma rhe_bounds (num den : ℕ) (_h : 0 < den) :
    num / den ≤ rhe num den ∧ rhe num den ≤ num / den + 1 := by
  simp only [rhe]
  split_ifs <;> omega

/-- C7 (amended): for every bpm between 4 and 2 to the 24, the emitted tempo
payload is the truncated f32 quotient of 60000000 by bpm, which equals
either the integer floor of 60000000 / bpm or that floor plus one (the
latter when the f32 rounding crosses an integer boundary, as at bpm 7); the
claimed exact equality with the floor does not hold for every bpm. -/
theorem claim_C7_amended (bpm : ℕ) (h4 : 4 ≤ bpm) (h24 : bpm ≤ 2 ^ 24) :
    60000000 / bpm ≤ tempo_u24 bpm ∧ tempo_u24 bpm ≤ 60000000 / bpm + 1 := by
  have hpow24 : (2 : ℕ) ^ 24 = 16777216 := by norm_num
  have hguard : ¬ (bpm = 0 ∨ 60000000 < bpm) := by omega
  have hsmall : 60000000 / bpm ≤ 15000000 := by
    have h15 : (60000000 : ℕ) / bpm ≤ 60000000 / 4 := Nat.div_le_div_left h4 (by norm_num)
    omega
  unfold tempo_u24 tempo_f32_u32 u24mask
  rw [if_neg hguard]
  set e := floorLog2Q 60000000 bpm with he
  by_cases hE : 23 ≤ e
  · have he23 : e = 23 := by
      by_contra hne
      have h23 := floorLog2Q_le 60000000 bpm 23 (by omega)
      have hmul : (4 : ℕ) * 2 ^ 24 ≤ bpm * 2 ^ 24 := Nat.mul_le_mul_right _ h4
      omega
    rw [if_pos hE, he23]
    norm_num
    obtain ⟨hlo, hhi⟩ := rhe_bounds 60000000 bpm (by omega)
    omega
  · rw [if_neg hE]
    have ht : 0 < 2 ^ (23 - e) := Nat.pos_pow_of_pos _ (by norm_num)
    obtain ⟨hlo, hhi⟩ := rhe_bounds (60000000 * 2 ^ (23 - e)) bpm (by omega)
    have hdiv : 60000000 * 2 ^ (23 - e) / bpm / 2 ^ (23 - e) = 60000000 / bpm := by
      rw [Nat.div_div_eq_div_mul, Nat.mul_comm bpm, ← Nat.div_div_eq_div_mul]
      rw [Nat.mul_div_cancel _ ht]
    have hlow : 60000000 / bpm ≤ rhe (60000000 * 2 ^ (23 - e)) bpm / 2 ^ (23 - e) := by
      rw [← hdiv]
      exact Nat.div_le_div_right hlo
    have hup : rhe (60000000 * 2 ^ (23 - e)) bpm / 2 ^ (23 - e) ≤ 60000000 / bpm + 1 := by
      calc rhe (60000000 * 2 ^ (23 - e)) bpm / 2 ^ (23 - e)
          ≤ (60000000 * 2 ^ (23 - e) / bpm + 1) / 2 ^ (23 - e) := Nat.div_le_div_right hhi
        _ ≤ (60000000 * 2 ^ (23 - e) / bpm + 2 ^ (23 - e)) / 2 ^ (23 - e) :=
            Nat.div_le_div_right (by omega)
        _ = 60000000 * 2 ^ (23 - e) / bpm / 2 ^ (23 - e) + 1 := Nat.add_div_right _ ht
        _ = 60000000 / bpm + 1 := by rw [hdiv]
    have hfin : rhe (60000000 * 2 ^ (23 - e)) bpm / 2 ^ (23 - e) % 16777216
        = rhe (60000000 * 2 ^ (23 - e)) bpm / 2 ^ (23 - e) :=
      Nat.mod_eq_of_lt (by omega)
    rw [hfin]
    exact ⟨hlow, hup⟩

/-- Witness for the amended C7 at bpm 120 (tempo 500000). -/
theorem claim_C7_witness :
    60000000 / 120 ≤ tempo_u24 120 ∧ tempo_u24 120 ≤ 60000000 / 120 + 1 :=
  claim_C7_amended 120 (by decide) (by decide)

/-- Counterexample to C7 as stated: at bpm 7 the emitted tempo is 8571429,
one above the truncated integer quotient 8571428, because the f32 quotient
rounds up to the nearest representable value before the truncating cast. -/
theorem claim_C7_counterexample :
    tempo_u24 7 = 8571429 ∧ 60000000 / 7 = 8571428 ∧ tempo_u24 7 ≠ 60000000 / 7 := by
  refine ⟨by decide, by decide, by decide⟩

/-! ## Claim C8 -/

/-- No event kind is both a note-on and a note-off. -/
lemma not_note_on_and_off (k : TrackEventKind) :
    ¬(k.is_note_on = true ∧ k.is_note_off = true) := by
  cases k with
  | meta m => simp [TrackEventKind.is_note_on, TrackEventKind.is_note_off]
  | midi ch m =>
      cases m <;> simp [TrackEventKind.is_note_on, TrackEventKind.is_note_off]

/-- The suppression flag of the polyphony pass always equals the comparison
of the running count against the ceiling, and under that invariant the pass
appends exactly one warning per upward ceiling crossing. -/
lemma poly_go (l : List AbsoluteTrackEvent) :
    ∀ (st st2 : PolyState),
      st.already_warned = decide (MIDI_MAX_POLYPHONY < st.current_polyphony) →
      l.foldlM poly_step st = some st2 →
      st2.warnings.length = st.warnings.length + excess_starts st.current_polyphony l := by
  induction l with
  | nil =>
      intro st st2 hw hf
      simp only [List.foldlM_nil, Option.pure_def, Option.some.injEq] at hf
      rw [← hf]
      simp [excess_starts]
  | cons e rest ih =>
      intro st st2 hw hf
      rw [List.foldlM_cons] at hf
      cases hstep : poly_step st e with
      | none =>
          rw [hstep] at hf
          simp at hf
      | some st1 =>
          rw [hstep] at hf
          simp only [Option.bind_eq_bind, Option.some_bind] at hf
          simp only [poly_step] at hstep
          by_cases hon : e.kind.is_note_on = true <;> by_cases hoff : e.kind.is_note_off = true
          · exact absurd ⟨hon, hoff⟩ (not_note_on_and_off e.kind)
          · -- note-on
            simp only [hon, hoff, if_true, if_false, Bool.false_eq_true] at hstep
            simp only [excess_starts, hon, hoff, if_true, if_false, Bool.false_eq_true]
            split at hstep
            · -- warning emitted: the count crosses the ceiling
              rename_i hcond
              simp only [Bool.and_eq_true, decide_eq_true_eq, Bool.not_eq_eq_eq_not,
                Bool.not_true] at hcond
              obtain ⟨hlt, hwf⟩ := hcond
              rw [hwf] at hw
              have hcle : ¬(MIDI_MAX_POLYPHONY < st.current_polyphony) := by
                by_contra hcon
                simp [hcon] at hw
              rw [Option.some.injEq] at hstep
              have h1 := ih st1 st2 (by rw [← hstep]; simp [hlt]) hf
              rw [← hstep] at h1
              simp only [List.length_append, List.length_singleton] at h1
              rw [h1, if_pos ⟨by omega, hlt⟩]
              omega
            · -- no warning: already over and suppressed, or still under
              rename_i hcond
              simp only [Bool.and_eq_true, decide_eq_true_eq, Bool.not_eq_eq_eq_not,
                Bool.not_true, not_and] at hcond
              rw [Option.some.injEq] at hstep
              have hinv : st1.already_warned
                  = decide (MIDI_MAX_POLYPHONY < st1.current_polyphony) := by
                rw [← hstep]
                by_cases hw0 : st.already_warned = true
                · have : MIDI_MAX_POLYPHONY < st.current_polyphony := by
                    rw [hw0] at hw
                    exact of_decide_eq_true hw.symm
                  simp [hw0, decide_eq_true_eq]
                  omega
                · have hnf : st.already_warned = false := by
                    cases hsb : st.already_warned
                    · rfl
                    · exact absurd hsb hw0
                  have : ¬(MIDI_MAX_POLYPHONY < st.current_polyphony + 1) := by
                    intro hcon
                    exact absurd hnf (by simp [hcond hcon])
                  simp [hnf, this]
              have h1 := ih st1 st2 hinv hf
              rw [← hstep] at h1
              simp only at h1
              rw [h1]
              have hni : ¬(st.current_polyphony ≤ MIDI_MAX_POLYPHONY
                  ∧ MIDI_MAX_POLYPHONY < st.current_polyphony + 1) := by
                intro ⟨ha, hb⟩
                have hwf : st.already_warned = true := by simpa using hcond hb
                rw [hwf] at hw
                have := of_decide_eq_true hw.symm
                omega
              rw [if_neg hni]
              omega
          · -- note-off
            simp only [hon, hoff, if_true, if_false, Bool.false_eq_true] at hstep
            simp only [excess_starts, hon, hoff, if_true, if_false, Bool.false_eq_true]
            split at hstep
            · exact absurd hstep (by simp)
            · rename_i hc0
              have hind : ¬(st.current_polyphony ≤ MIDI_MAX_POLYPHONY
                  ∧ MIDI_MAX_POLYPHONY < st.current_polyphony - 1) := by omega
              rw [if_neg hind]
              split at hstep
              · -- re-arm: back at or under the ceiling
                rename_i hcond
                simp only [Bool.and_eq_true, decide_eq_true_eq] at hcond
                rw [Option.some.injEq] at hstep
                have hinv : st1.already_warned
                    = decide (MIDI_MAX_POLYPHONY < st1.current_polyphony) := by
                  rw [← hstep]
                  have hle2 : ¬(MIDI_MAX_POLYPHONY < st.current_polyphony - 1) := by omega
                  simp [hle2]
                have h1 := ih st1 st2 hinv hf
                rw [← hstep] at h1
                simp only at h1
                omega
              · rename_i hcond
                simp only [Bool.and_eq_true, decide_eq_true_eq, not_and] at hcond
                rw [Option.some.injEq] at hstep
                have hinv : st1.already_warned
                    = decide (MIDI_MAX_POLYPHONY < st1.current_polyphony) := by
                  rw [← hstep]
                  by_cases hw0 : st.already_warned = true
                  · have hgt : MIDI_MAX_POLYPHONY < st.current_polyphony := by
                      rw [hw0] at hw
                      exact of_decide_eq_true hw.symm
                    have hc24 : ¬(st.current_polyphony - 1 ≤ MIDI_MAX_POLYPHONY) := by
                      intro hcon
                      have := hcond hcon
                      rw [hw0] at this
                      simp at this
                    simp [hw0, decide_eq_true_eq]
                    omega
                  · have hnf : st.already_warned = false := by
                      cases hsb : st.already_warned
                      · rfl
                      · exact absurd hsb hw0
                    have hle : ¬(MIDI_MAX_POLYPHONY < st.current_polyphony) := by
                      intro hcon
                      rw [hnf] at hw
                      simp [hcon] at hw
                    simp only [hnf]
                    have : ¬(MIDI_MAX_POLYPHONY < st.current_polyphony - 1) := by omega
                    simp [this]
                have h1 := ih st1 st2 hinv hf
                rw [← hstep] at h1
                simp only at h1
                omega
          · -- neither a note-on nor a note-off
            simp only [hon, hoff, if_false, Bool.false_eq_true] at hstep
            simp only [excess_starts, hon, hoff, if_false, Bool.false_eq_true]
            rw [Option.some.injEq] at hstep
            have h1 := ih st1 st2 (by rw [← hstep]; exact hw) hf
            rw [← hstep] at h1
            rw [h1, if_neg (by omega)]
            omega

set_option maxRecDepth 8000 in
/-- C8: on every event list the polyphony pass completes with exactly one
warning per contiguous period over the 24-voice ceiling (one warning per
upward crossing of the ceiling, suppressed while over it and re-armed once
back at or under); in particular 25 simultaneous onsets before any release
produce exactly one warning. -/
theorem claim_C8 :
    (∀ (l : List AbsoluteTrackEvent) (st : PolyState),
      poly_pass l = some st → st.warnings.length = excess_starts 0 l)
      ∧ (poly_pass c8_onsets).map (fun st => st.warnings.length) = some 1 := by
  constructor
  · intro l st h
    have := poly_go l ⟨0, false, []⟩ st (by decide) h
    simpa using this
  · decide

/-- Witness for C8 at a one-onset list (no crossing, no warning). -/
theorem claim_C8_witness :
    (PolyState.mk 1 false []).warnings.length = excess_starts 0 c8_single :=
  claim_C8.1 c8_single ⟨1, false, []⟩ (by decide)

/-! ## Claim C10 -/

/-- The SF2 track iterator commutes with clearing the mute/solo state. -/
lemma sf2_tracks_scrub (p : LmmsProject) :
    (p.scrub).sf2_tracks = p.sf2_tracks.map LmmsTrack.scrub := by
  unfold LmmsProject.sf2_tracks
  show List.filter _ (p.song.tracks.map LmmsTrack.scrub) = _
  rw [List.filter_map]
  exact congrArg _ (List.filter_congr fun x _ => rfl)

/-- The melodic filter commutes with clearing the mute/solo state. -/
lemma filter_instr_scrub (p : LmmsProject) :
    (p.scrub).sf2_tracks.filter LmmsTrack.is_instrument_track
      = (p.sf2_tracks.filter LmmsTrack.is_instrument_track).map LmmsTrack.scrub := by
  rw [sf2_tracks_scrub, List.filter_map]
  exact congrArg _ (List.filter_congr fun x _ => rfl)

/-- The percussion filter commutes with clearing the mute/solo state. -/
lemma filter_prec_scrub (p : LmmsProject) :
    (p.scrub).sf2_tracks.filter LmmsTrack.is_precussion_track
      = (p.sf2_tracks.filter LmmsTrack.is_precussion_track).map LmmsTrack.scrub := by
  rw [sf2_tracks_scrub, List.filter_map]
  exact congrArg _ (List.filter_congr fun x _ => rfl)

/-- Ordered insertion only inspects the channel, so it commutes with mapping
the scrub over the track component. -/
lemma orderedInsert_map_scrub (a : ℕ × LmmsTrack) (l : List (ℕ × LmmsTrack)) :
    List.orderedInsert ChannelLE (Prod.map id LmmsTrack.scrub a)
        (l.map (Prod.map id LmmsTrack.scrub))
      = (List.orderedInsert ChannelLE a l).map (Prod.map id LmmsTrack.scrub) := by
  induction l with
  | nil => rfl
  | cons b t ih =>
      simp only [List.map_cons, List.orderedInsert]
      by_cases h : ChannelLE a b
      · rw [if_pos h,
          if_pos (show ChannelLE (Prod.map id LmmsTrack.scrub a) (Prod.map id LmmsTrack.scrub b) from h)]
        simp [List.map_cons]
      · rw [if_neg h,
          if_neg (show ¬ChannelLE (Prod.map id LmmsTrack.scrub a) (Prod.map id LmmsTrack.scrub b) from h),
          ih, List.map_cons]

/-- The assignment sort commutes with mapping the scrub over tracks. -/
lemma insertionSort_map_scrub (l : List (ℕ × LmmsTrack)) :
    List.insertionSort ChannelLE (l.map (Prod.map id LmmsTrack.scrub))
      = (List.insertionSort ChannelLE l).map (Prod.map id LmmsTrack.scrub) := by
  induction l with
  | nil => rfl
  | cons a t ih =>
      simp only [List.map_cons, List.insertionSort, ih, orderedInsert_map_scrub]

/-- The channel assignment of a scrubbed project is the scrubbed channel
assignment of the project. -/
lemma assignment_scrub (p : LmmsProject) :
    lmms_track_midi_channel (p.scrub)
      = (lmms_track_midi_channel p).map (Prod.map id LmmsTrack.scrub) := by
  simp only [lmms_track_midi_channel]
  rw [filter_instr_scrub, filter_prec_scrub]
  rw [List.zip_map_right, List.zip_map_right, ← List.map_append, insertionSort_map_scrub]

/-- One note event pair is untouched by the scrub. -/
lemma note_pair_scrub (p : LmmsProject) (ch : ℕ) (pat : LmmsPattern) (t : LmmsTrack)
    (n : LmmsNote) :
    note_pair (p.scrub) ch (LmmsPattern.scrub pat) (LmmsTrack.scrub t) n
      = note_pair p ch pat t n := rfl

/-- Scrubbing a track maps the pattern scrub over its patterns. -/
lemma LmmsTrack.scrub_patterns (t : LmmsTrack) :
    (LmmsTrack.scrub t).patterns = t.patterns.map LmmsPattern.scrub := rfl

/-- Scrubbing a pattern keeps its notes. -/
lemma LmmsPattern.scrub_notes (pat : LmmsPattern) :
    (LmmsPattern.scrub pat).notes = pat.notes := rfl

/-- The expanded note events are untouched by the scrub. -/
lemma midi_note_events_scrub (p : LmmsProject) :
    midi_note_events (p.scrub) = midi_note_events p := by
  unfold midi_note_events
  rw [assignment_scrub, List.flatMap_map]
  congr 1
  funext ct
  obtain ⟨c, t⟩ := ct
  simp only [Prod.map, id_eq]
  rw [LmmsTrack.scrub_patterns, List.flatMap_map]
  congr 1

/-- The per-channel setup block is untouched by the scrub. -/
lemma channel_init_scrub (ch : ℕ) (t : LmmsTrack) :
    channel_init_events ch (LmmsTrack.scrub t) = channel_init_events ch t := rfl

/-- The whole conversion is untouched by the scrub. -/
lemma convert_scrub (args : Args) (p : LmmsProject) :
    convert args (p.scrub) = convert args p := by
  have h1 : midi_track_events args (p.scrub) = midi_track_events args p := by
    unfold midi_track_events
    rw [midi_note_events_scrub]
    rfl
  have h2 : ((lmms_track_midi_channel (p.scrub)).flatMap fun ct => channel_init_events ct.1 ct.2)
      = (lmms_track_midi_channel p).flatMap fun ct => channel_init_events ct.1 ct.2 := by
    rw [assignment_scrub, List.flatMap_map]
    congr 1
  unfold convert sorted_events
  rw [h1, h2]
  rfl

/-- C10: two projects that differ only in the track mute/solo flags and
the pattern muted flags (equal after clearing that state) convert to the
same output: the converter reads but never consults mute and solo state, so
muted tracks and muted patterns still emit all their notes. -/
theorem claim_C10 (args : Args) (p q : LmmsProject)
    (h : LmmsProject.scrub p = LmmsProject.scrub q) :
    convert args p = convert args q := by
  rw [← convert_scrub args p, ← convert_scrub args q, h]

/-- Witness for C10: the fully muted and the fully unmuted variant of the
same project convert identically. -/
theorem claim_C10_witness :
    convert args_default (c10_project 1 1 1 (some 1))
      = convert args_default (c10_project 0 0 0 none) :=
  claim_C10 args_default (c10_project 1 1 1 (some 1)) (c10_project 0 0 0 none) (by rfl)

/-! ## Claim C9, part 1: counting note-on and note-off events -/

/-- The comparator is reflexive. -/
lemma eventLE_refl (a : AbsoluteTrackEvent) : EventLE a a := by
  unfold EventLE
  omega

/-- The comparator is transitive. -/
lemma eventLE_trans {a b c : AbsoluteTrackEvent} (h1 : EventLE a b) (h2 : EventLE b c) :
    EventLE a c := by
  unfold EventLE at h1 h2 ⊢
  omega

/-- The comparator is total. -/
lemma eventLE_total (a b : AbsoluteTrackEvent) : EventLE a b ∨ EventLE b a := by
  unfold EventLE
  omega

/-- The comparator on explicit event records, with the projections reduced. -/
lemma eventLE_mk {t1 s1 t2 s2 : ℕ} {k1 k2 : TrackEventKind} :
    EventLE ⟨t1, s1, k1⟩ ⟨t2, s2, k2⟩
      ↔ (t1 < t2 ∨ (t1 = t2 ∧ (s1 < s2 ∨ (s1 = s2 ∧ kind_bits k1 ≤ kind_bits k2)))) :=
  Iff.rfl

/-- For one on/off event pair: every counted note-off at or below a
threshold event is matched by a counted note-on strictly below it (the
onset of a note never sorts after its release). -/
lemma pair_count_le (m : ℕ → ℕ → Bool) (thr : AbsoluteTrackEvent) (s len c k v : ℕ) :
    List.countP (fun e => offP m e && decide (EventLE e thr))
        [⟨s, s, .midi c (.noteOn k v)⟩, ⟨s + len, s, .midi c (.noteOff k v)⟩]
      ≤ List.countP (fun e => onP m e && decide (EventLE e thr) && !decide (EventLE thr e))
          [⟨s, s, .midi c (.noteOn k v)⟩, ⟨s + len, s, .midi c (.noteOff k v)⟩] := by
  simp only [List.countP_cons, List.countP_nil, offP, onP]
  by_cases hm : m c k = true
  · by_cases hoffle : EventLE ⟨s + len, s, .midi c (.noteOff k v)⟩ thr
    · have h1 : EventLE ⟨s, s, .midi c (.noteOn k v)⟩ ⟨s + len, s, .midi c (.noteOff k v)⟩ := by
        rw [eventLE_mk, kind_bits_note_on, kind_bits_note_off]
        omega
      have h2 : ¬EventLE ⟨s + len, s, .midi c (.noteOff k v)⟩ ⟨s, s, .midi c (.noteOn k v)⟩ := by
        rw [eventLE_mk, kind_bits_note_off, kind_bits_note_on]
        omega
      have h3 : EventLE ⟨s, s, .midi c (.noteOn k v)⟩ thr := eventLE_trans h1 hoffle
      have h4 : ¬EventLE thr ⟨s, s, .midi c (.noteOn k v)⟩ := fun hc => h2 (eventLE_trans hoffle hc)
      simp [hm, hoffle, h3, h4]
    · simp [hoffle]
  · simp [hm]

/-- Counting inequalities lift through flat maps. -/
lemma countP_flatMap_le {α : Type} (PL PR : AbsoluteTrackEvent → Bool)
    (f : α → List AbsoluteTrackEvent) (l : List α)
    (h : ∀ x ∈ l, List.countP PL (f x) ≤ List.countP PR (f x)) :
    List.countP PL (l.flatMap f) ≤ List.countP PR (l.flatMap f) := by
  induction l with
  | nil => simp
  | cons a t ih =>
      simp only [List.flatMap_cons, List.countP_append]
      have ha := h a (by simp)
      have ht := ih fun x hx => h x (by simp [hx])
      omega

/-- Loop markers are neither note-ons nor note-offs, so they never count as
note releases. -/
lemma loop_marker_countP_off (m : ℕ → ℕ → Bool) (thr : AbsoluteTrackEvent)
    (args : Args) (p : LmmsProject) :
    List.countP (fun e => offP m e && decide (EventLE e thr)) (loop_marker_events args p) = 0 := by
  rw [List.countP_eq_zero]
  intro e he
  unfold loop_marker_events at he
  rw [List.mem_flatMap] at he
  obtain ⟨s, -, hs⟩ := he
  cases s with
  | rpgMaker =>
      simp only [loop_events_of, List.mem_singleton] at hs
      subst hs
      simp [offP]
  | emidiLocal =>
      simp only [loop_events_of, List.mem_cons, List.mem_singleton, List.not_mem_nil,
        or_false] at hs
      rcases hs with rfl | rfl <;> simp [offP]
  | emidiGlobal =>
      simp only [loop_events_of, List.mem_cons, List.mem_singleton, List.not_mem_nil,
        or_false] at hs
      rcases hs with rfl | rfl <;> simp [offP]
  | finalFantasy =>
      simp only [loop_events_of, List.mem_cons, List.mem_singleton, List.not_mem_nil,
        or_false] at hs
      rcases hs with rfl | rfl <;> simp [offP]

/-- When a note does not overflow the usize tick arithmetic, its event pair
has the plain unwrapped ticks. -/
lemma note_pair_eq_of_no_overflow (p : LmmsProject) (ch : ℕ) (pat : LmmsPattern)
    (t : LmmsTrack) (n : LmmsNote)
    (hn : pat.position + n.position + n.length < 18446744073709551616) :
    note_pair p ch pat t n
      = [⟨pat.position + n.position, pat.position + n.position,
          .midi (u4mask ch) (.noteOn (note_key_byte p t n) (note_velocity_byte n.volume))⟩,
         ⟨pat.position + n.position + n.length, pat.position + n.position,
          .midi (u4mask ch) (.noteOff (note_key_byte p t n) (note_velocity_byte n.volume))⟩] := by
  have h1 : (pat.position + n.position) % 18446744073709551616 = pat.position + n.position :=
    Nat.mod_eq_of_lt (by omega)
  have h2 : (pat.position + n.position + n.length) % 18446744073709551616
      = pat.position + n.position + n.length :=
    Nat.mod_eq_of_lt (by omega)
  simp only [note_pair, u64wrap, h1, h2]

/-- Over the full unsorted event list of a run without usize tick overflow:
the note-offs at or below any threshold are at most the note-ons strictly
below it, for every matcher. -/
lemma events_count_le (m : ℕ → ℕ → Bool) (thr : AbsoluteTrackEvent)
    (args : Args) (p : LmmsProject) (hnof : no_note_overflow p) :
    List.countP (fun e => offP m e && decide (EventLE e thr)) (midi_track_events args p)
      ≤ List.countP (fun e => onP m e && decide (EventLE e thr) && !decide (EventLE thr e))
          (midi_track_events args p) := by
  unfold midi_track_events
  rw [List.countP_append, List.countP_append]
  have hloop := loop_marker_countP_off m thr args p
  have hnotes :
      List.countP (fun e => offP m e && decide (EventLE e thr)) (midi_note_events p)
        ≤ List.countP (fun e => onP m e && decide (EventLE e thr) && !decide (EventLE thr e))
            (midi_note_events p) := by
    unfold midi_note_events
    apply countP_flatMap_le
    intro ct hct
    apply countP_flatMap_le
    intro pat hpat
    apply countP_flatMap_le
    intro n hn
    rw [note_pair_eq_of_no_overflow p ct.1 pat ct.2 n (hnof ct hct pat hpat n hn)]
    exact pair_count_le m thr (pat.position + n.position) n.length (u4mask ct.1)
      (note_key_byte p ct.2 n) (note_velocity_byte n.volume)
  omega

/-- Every nonempty event list has a maximal element for the comparator. -/
lemma exists_max_eventLE (l : List AbsoluteTrackEvent) (hne : l ≠ []) :
    ∃ thr ∈ l, ∀ x ∈ l, EventLE x thr := by
  induction l with
  | nil => exact absurd rfl hne
  | cons a t ih =>
      by_cases ht : t = []
      · subst ht
        refine ⟨a, by simp, ?_⟩
        intro x hx
        rw [List.mem_singleton] at hx
        subst hx
        exact eventLE_refl x
      · obtain ⟨thr, hmem, hall⟩ := ih ht
        rcases eventLE_total a thr with h | h
        · refine ⟨thr, by simp [hmem], ?_⟩
          intro x hx
          rcases List.mem_cons.1 hx with rfl | hx2
          · exact h
          · exact hall x hx2
        · refine ⟨a, by simp, ?_⟩
          intro x hx
          rcases List.mem_cons.1 hx with rfl | hx2
          · exact eventLE_refl x
          · exact eventLE_trans (hall x hx2) h

/-- Every prefix of the sorted event list is balanced: per matcher, it
contains at least as many note-ons as note-offs. -/
lemma prefix_balance (args : Args) (p : LmmsProject) (hnof : no_note_overflow p)
    (P S : List AbsoluteTrackEvent)
    (hsplit : sorted_events args p = P ++ S) (m : ℕ → ℕ → Bool) :
    List.countP (offP m) P ≤ List.countP (onP m) P := by
  by_cases hofs : P.filter (offP m) = []
  · have h0 : List.countP (offP m) P = 0 := by
      rw [List.countP_eq_length_filter, hofs]
      rfl
    omega
  · obtain ⟨thr, hmem, hall⟩ := exists_max_eventLE (P.filter (offP m)) hofs
    rw [List.mem_filter] at hmem
    obtain ⟨hthrP, hthroff⟩ := hmem
    have hs : (P ++ S).Sorted EventLE := by
      rw [← hsplit]
      exact sort_events_sorted (midi_track_events args p)
    have hcut : ∀ x ∈ P, ∀ y ∈ S, EventLE x y := (List.pairwise_append.1 hs).2.2
    have hperm : (P ++ S).Perm (midi_track_events args p) := by
      rw [← hsplit]
      exact sort_events_perm (midi_track_events args p)
    have h1 : List.countP (offP m) P
        = List.countP (fun e => offP m e && decide (EventLE e thr)) P := by
      refine List.countP_congr fun x hx => ?_
      constructor
      · intro hpx
        have hxthr : EventLE x thr := hall x (List.mem_filter.2 ⟨hx, hpx⟩)
        simp [hpx, hxthr]
      · intro hq
        simp only [Bool.and_eq_true] at hq
        exact hq.1
    have h2 : List.countP (fun e => offP m e && decide (EventLE e thr)) P
        ≤ List.countP (fun e => offP m e && decide (EventLE e thr)) (P ++ S) := by
      rw [List.countP_append]
      omega
    have h3 : List.countP (fun e => offP m e && decide (EventLE e thr)) (P ++ S)
        = List.countP (fun e => offP m e && decide (EventLE e thr)) (midi_track_events args p) :=
      hperm.countP_eq _
    have h4 := events_count_le m thr args p hnof
    have h5 : List.countP (fun e => onP m e && decide (EventLE e thr) && !decide (EventLE thr e))
          (midi_track_events args p)
        = List.countP (fun e => onP m e && decide (EventLE e thr) && !decide (EventLE thr e))
            (P ++ S) :=
      (hperm.countP_eq _).symm
    have h6 : List.countP (fun e => onP m e && decide (EventLE e thr) && !decide (EventLE thr e)) S
        = 0 := by
      rw [List.countP_eq_zero]
      intro y hy hcon
      simp only [Bool.and_eq_true, Bool.not_eq_true', decide_eq_false_iff_not,
        decide_eq_true_eq] at hcon
      exact hcon.2 (hcut thr hthrP y hy)
    have h7 : List.countP (fun e => onP m e && decide (EventLE e thr) && !decide (EventLE thr e)) P
        ≤ List.countP (onP m) P := by
      refine List.countP_mono_left fun x _ hx => ?_
      simp only [Bool.and_eq_true] at hx
      exact hx.1.1
    rw [List.countP_append] at h5
    omega

/-! ## Claim C9, part 2: the validator passes succeed on balanced inputs -/

/-- Counting a one-element list. -/
lemma countP_one {α : Type} (p : α → Bool) (a : α) :
    List.countP p [a] = if p a then 1 else 0 := by
  simp [List.countP_cons]

/-- With the always-true matcher, the on-predicate is the note-on flag. -/
lemma onP_top (e : AbsoluteTrackEvent) : onP (fun _ _ => true) e = e.kind.is_note_on := by
  obtain ⟨ti, ts, k⟩ := e
  cases k with
  | meta mm => rfl
  | midi ch msg => cases msg <;> rfl

/-- With the always-true matcher, the off-predicate is the note-off flag. -/
lemma offP_top (e : AbsoluteTrackEvent) : offP (fun _ _ => true) e = e.kind.is_note_off := by
  obtain ⟨ti, ts, k⟩ := e
  cases k with
  | meta mm => rfl
  | midi ch msg => cases msg <;> rfl

/-- The polyphony pass, started in a state whose counter equals the on/off
difference of the processed prefix, completes on any remaining events whose
every prefix is balanced. -/
lemma poly_go_isSome :
    ∀ (rest pre : List AbsoluteTrackEvent) (st : PolyState),
      (∀ P S, pre ++ rest = P ++ S →
        List.countP (offP (fun _ _ => true)) P ≤ List.countP (onP (fun _ _ => true)) P) →
      st.current_polyphony
          = List.countP (onP (fun _ _ => true)) pre - List.countP (offP (fun _ _ => true)) pre →
      List.countP (offP (fun _ _ => true)) pre ≤ List.countP (onP (fun _ _ => true)) pre →
      (List.foldlM poly_step st rest).isSome := by
  intro rest
  induction rest with
  | nil =>
      intro pre st _ _ _
      simp [List.foldlM_nil]
  | cons e t ih =>
      intro pre st hbal hc hle
      rw [List.foldlM_cons]
      have htrans : ∀ P S, (pre ++ [e]) ++ t = P ++ S →
          List.countP (offP (fun _ _ => true)) P ≤ List.countP (onP (fun _ _ => true)) P := by
        intro P S hPS
        apply hbal P S
        rw [← hPS, List.append_assoc]
        rfl
      by_cases hon : e.kind.is_note_on = true <;> by_cases hoff : e.kind.is_note_off = true
      · exact absurd ⟨hon, hoff⟩ (not_note_on_and_off e.kind)
      · -- note-on
        simp only [Bool.not_eq_true] at hoff
        have hone : List.countP (onP (fun _ _ => true)) [e] = 1 := by
          rw [countP_one, onP_top, hon]
          rfl
        have hoffe : List.countP (offP (fun _ _ => true)) [e] = 0 := by
          rw [countP_one, offP_top, hoff]
          rfl
        have hstep : ∃ st1, poly_step st e = some st1
            ∧ st1.current_polyphony = st.current_polyphony + 1 := by
          simp only [poly_step, hon, hoff, if_true, Bool.false_eq_true, if_false]
          split
          · exact ⟨_, rfl, rfl⟩
          · exact ⟨_, rfl, rfl⟩
        obtain ⟨st1, hs1, hc1⟩ := hstep
        rw [hs1]
        simp only [Option.bind_eq_bind, Option.some_bind]
        apply ih (pre ++ [e]) st1 htrans
        · rw [List.countP_append, List.countP_append, hone, hoffe]
          omega
        · rw [List.countP_append, List.countP_append, hone, hoffe]
          omega
      · -- note-off
        simp only [Bool.not_eq_true] at hon
        have hone : List.countP (onP (fun _ _ => true)) [e] = 0 := by
          rw [countP_one, onP_top, hon]
          rfl
        have hoffe : List.countP (offP (fun _ _ => true)) [e] = 1 := by
          rw [countP_one, offP_top, hoff]
          rfl
        have hb1 := hbal (pre ++ [e]) t (by rw [List.append_assoc]; rfl)
        rw [List.countP_append, List.countP_append, hone, hoffe] at hb1
        have hcpos : ¬st.current_polyphony = 0 := by omega
        have hstep : ∃ st1, poly_step st e = some st1
            ∧ st1.current_polyphony = st.current_polyphony - 1 := by
          simp only [poly_step, hon, hoff, if_true, Bool.false_eq_true, if_false]
          rw [if_neg hcpos]
          split
          · exact ⟨_, rfl, rfl⟩
          · exact ⟨_, rfl, rfl⟩
        obtain ⟨st1, hs1, hc1⟩ := hstep
        rw [hs1]
        simp only [Option.bind_eq_bind, Option.some_bind]
        apply ih (pre ++ [e]) st1 htrans
        · rw [List.countP_append, List.countP_append, hone, hoffe]
          omega
        · rw [List.countP_append, List.countP_append, hone, hoffe]
          omega
      · -- neither
        simp only [Bool.not_eq_true] at hon hoff
        have hone : List.countP (onP (fun _ _ => true)) [e] = 0 := by
          rw [countP_one, onP_top, hon]
          rfl
        have hoffe : List.countP (offP (fun _ _ => true)) [e] = 0 := by
          rw [countP_one, offP_top, hoff]
          rfl
        have hstep : poly_step st e = some st := by
          simp [poly_step, hon, hoff]
        rw [hstep]
        simp only [Option.bind_eq_bind, Option.some_bind]
        apply ih (pre ++ [e]) st htrans
        · rw [List.countP_append, List.countP_append, hone, hoffe]
          omega
        · rw [List.countP_append, List.countP_append, hone, hoffe]
          omega

/-- The polyphony pass succeeds on every globally prefix-balanced list. -/
lemma poly_pass_isSome (l : List AbsoluteTrackEvent)
    (hbal : ∀ P S, l = P ++ S →
      List.countP (offP (fun _ _ => true)) P ≤ List.countP (onP (fun _ _ => true)) P) :
    (poly_pass l).isSome :=
  poly_go_isSome l [] ⟨0, false, []⟩ (fun P S h => hbal P S h) rfl (Nat.le_refl 0)

/-- A matched key pair satisfies its own matcher. -/
lemma mK_self (ch k : ℕ) : mK ch k ch k = true := by
  simp [mK]

/-- Distinct key pairs fail the matcher. -/
lemma mK_other {ch k ch0 k0 : ℕ} (h : ¬((ch : ℕ), (k : ℕ)) = ((ch0 : ℕ), (k0 : ℕ))) :
    mK ch k ch0 k0 = false := by
  by_cases h1 : ch0 = ch
  · have h2 : ¬k0 = k := fun hb => h (by rw [h1, hb])
    simp [mK, h2]
  · simp [mK, h1]

/-- The overlap pass, started in a state whose map carries the per-key
on/off differences of the processed prefix (absent exactly when zero),
completes on any remaining events whose every prefix is per-key balanced. -/
lemma note_go_isSome :
    ∀ (rest pre : List AbsoluteTrackEvent) (st : NoteCountState),
      (∀ P S, pre ++ rest = P ++ S → ∀ ch k,
        List.countP (offP (mK ch k)) P ≤ List.countP (onP (mK ch k)) P) →
      (∀ ch k, st.counts (ch, k)
          = (if List.countP (onP (mK ch k)) pre - List.countP (offP (mK ch k)) pre = 0 then none
             else some (List.countP (onP (mK ch k)) pre - List.countP (offP (mK ch k)) pre))) →
      (∀ ch k, List.countP (offP (mK ch k)) pre ≤ List.countP (onP (mK ch k)) pre) →
      (List.foldlM note_count_step st rest).isSome := by
  intro rest
  induction rest with
  | nil =>
      intro pre st _ _ _
      simp [List.foldlM_nil]
  | cons e t ih =>
      intro pre st hbal hinv hle
      rw [List.foldlM_cons]
      have htrans : ∀ P S, (pre ++ [e]) ++ t = P ++ S → ∀ ch k,
          List.countP (offP (mK ch k)) P ≤ List.countP (onP (mK ch k)) P := by
        intro P S hPS
        apply hbal P S
        rw [← hPS, List.append_assoc]
        rfl
      obtain ⟨ti, ts, kk⟩ := e
      cases kk with
      | meta mm =>
          rw [show note_count_step st ⟨ti, ts, .meta mm⟩ = some st from rfl]
          simp only [Option.bind_eq_bind, Option.some_bind]
          apply ih (pre ++ [⟨ti, ts, .meta mm⟩]) st htrans
          · intro ch k
            rw [List.countP_append, List.countP_append, countP_one, countP_one]
            simpa [onP, offP] using hinv ch k
          · intro ch k
            rw [List.countP_append, List.countP_append, countP_one, countP_one]
            simpa [onP, offP] using hle ch k
      | midi ch0 msg =>
          cases msg with
          | controller cc vv =>
              rw [show note_count_step st ⟨ti, ts, .midi ch0 (.controller cc vv)⟩ = some st from rfl]
              simp only [Option.bind_eq_bind, Option.some_bind]
              apply ih (pre ++ [⟨ti, ts, .midi ch0 (.controller cc vv)⟩]) st htrans
              · intro ch k
                rw [List.countP_append, List.countP_append, countP_one, countP_one]
                simpa [onP, offP] using hinv ch k
              · intro ch k
                rw [List.countP_append, List.countP_append, countP_one, countP_one]
                simpa [onP, offP] using hle ch k
          | programChange pg =>
              rw [show note_count_step st ⟨ti, ts, .midi ch0 (.programChange pg)⟩ = some st from rfl]
              simp only [Option.bind_eq_bind, Option.some_bind]
              apply ih (pre ++ [⟨ti, ts, .midi ch0 (.programChange pg)⟩]) st htrans
              · intro ch k
                rw [List.countP_append, List.countP_append, countP_one, countP_one]
                simpa [onP, offP] using hinv ch k
              · intro ch k
                rw [List.countP_append, List.countP_append, countP_one, countP_one]
                simpa [onP, offP] using hle ch k
          | noteOn k0 v0 =>
              have hgetD : (st.counts (ch0, k0)).getD 0
                  = List.countP (onP (mK ch0 k0)) pre - List.countP (offP (mK ch0 k0)) pre := by
                rw [hinv ch0 k0]
                split
                · rename_i h0
                  rw [h0]
                  rfl
                · rfl
              rw [show note_count_step st ⟨ti, ts, .midi ch0 (.noteOn k0 v0)⟩
                  = some { counts := fun q => if q = (ch0, k0)
                             then some ((st.counts (ch0, k0)).getD 0 + 1) else st.counts q,
                           warnings := if 2 ≤ (st.counts (ch0, k0)).getD 0 + 1
                             then st.warnings ++ [ti] else st.warnings } from rfl]
              simp only [Option.bind_eq_bind, Option.some_bind]
              apply ih (pre ++ [⟨ti, ts, .midi ch0 (.noteOn k0 v0)⟩]) _ htrans
              · intro ch k
                have hco : List.countP (onP (mK ch k)) (pre ++ [⟨ti, ts, .midi ch0 (.noteOn k0 v0)⟩])
                    = List.countP (onP (mK ch k)) pre + (if mK ch k ch0 k0 = true then 1 else 0) := by
                  rw [List.countP_append, countP_one]
                  rfl
                have hcf : List.countP (offP (mK ch k)) (pre ++ [⟨ti, ts, .midi ch0 (.noteOn k0 v0)⟩])
                    = List.countP (offP (mK ch k)) pre := by
                  rw [List.countP_append, countP_one]
                  rfl
                rw [hco, hcf]
                by_cases hkey : ((ch : ℕ), (k : ℕ)) = ((ch0 : ℕ), (k0 : ℕ))
                · obtain ⟨rfl, rfl⟩ : ch = ch0 ∧ k = k0 := by simpa [Prod.ext_iff] using hkey
                  rw [mK_self]
                  show (if ((ch : ℕ), (k : ℕ)) = (ch, k)
                        then some ((st.counts (ch, k)).getD 0 + 1)
                        else st.counts (ch, k)) = _
                  rw [if_pos rfl, hgetD,
                    show (if (true : Bool) = true then 1 else 0) = 1 from rfl]
                  have hd := hle ch k
                  rw [if_neg (by omega), Option.some.injEq]
                  omega
                · rw [mK_other hkey]
                  show (if ((ch : ℕ), (k : ℕ)) = (ch0, k0)
                        then some ((st.counts (ch0, k0)).getD 0 + 1)
                        else st.counts (ch, k)) = _
                  rw [if_neg hkey,
                    show (if (false : Bool) = true then 1 else 0) = 0 from rfl,
                    Nat.add_zero]
                  exact hinv ch k
              · intro ch k
                have hco : List.countP (onP (mK ch k)) (pre ++ [⟨ti, ts, .midi ch0 (.noteOn k0 v0)⟩])
                    = List.countP (onP (mK ch k)) pre + (if mK ch k ch0 k0 = true then 1 else 0) := by
                  rw [List.countP_append, countP_one]
                  rfl
                have hcf : List.countP (offP (mK ch k)) (pre ++ [⟨ti, ts, .midi ch0 (.noteOn k0 v0)⟩])
                    = List.countP (offP (mK ch k)) pre := by
                  rw [List.countP_append, countP_one]
                  rfl
                rw [hco, hcf]
                have := hle ch k
                split <;> omega
          | noteOff k0 v0 =>
              have hb1 := hbal (pre ++ [⟨ti, ts, .midi ch0 (.noteOff k0 v0)⟩]) t
                (by rw [List.append_assoc]; rfl) ch0 k0
              have hcf0 : List.countP (offP (mK ch0 k0))
                    (pre ++ [⟨ti, ts, .midi ch0 (.noteOff k0 v0)⟩])
                  = List.countP (offP (mK ch0 k0)) pre + 1 := by
                rw [List.countP_append, countP_one,
                  show offP (mK ch0 k0) ⟨ti, ts, .midi ch0 (.noteOff k0 v0)⟩ = true from mK_self ch0 k0]
                rfl
              have hco0 : List.countP (onP (mK ch0 k0))
                    (pre ++ [⟨ti, ts, .midi ch0 (.noteOff k0 v0)⟩])
                  = List.countP (onP (mK ch0 k0)) pre := by
                rw [List.countP_append, countP_one]
                rfl
              rw [hcf0, hco0] at hb1
              have hdpos : ¬(List.countP (onP (mK ch0 k0)) pre
                  - List.countP (offP (mK ch0 k0)) pre = 0) := by omega
              have hsc : st.counts (ch0, k0)
                  = some (List.countP (onP (mK ch0 k0)) pre
                      - List.countP (offP (mK ch0 k0)) pre) := by
                rw [hinv ch0 k0, if_neg hdpos]
              have hstep : note_count_step st ⟨ti, ts, .midi ch0 (.noteOff k0 v0)⟩
                  = some { counts := fun q => if q = (ch0, k0)
                             then (if (List.countP (onP (mK ch0 k0)) pre
                                     - List.countP (offP (mK ch0 k0)) pre) - 1 = 0 then none
                                   else some ((List.countP (onP (mK ch0 k0)) pre
                                     - List.countP (offP (mK ch0 k0)) pre) - 1))
                             else st.counts q,
                           warnings := st.warnings } := by
                simp only [note_count_step, hsc]
                rw [if_neg hdpos]
              rw [hstep]
              simp only [Option.bind_eq_bind, Option.some_bind]
              apply ih (pre ++ [⟨ti, ts, .midi ch0 (.noteOff k0 v0)⟩]) _ htrans
              · intro ch k
                have hco : List.countP (onP (mK ch k)) (pre ++ [⟨ti, ts, .midi ch0 (.noteOff k0 v0)⟩])
                    = List.countP (onP (mK ch k)) pre := by
                  rw [List.countP_append, countP_one]
                  rfl
                have hcf : List.countP (offP (mK ch k)) (pre ++ [⟨ti, ts, .midi ch0 (.noteOff k0 v0)⟩])
                    = List.countP (offP (mK ch k)) pre + (if mK ch k ch0 k0 = true then 1 else 0) := by
                  rw [List.countP_append, countP_one]
                  rfl
                rw [hco, hcf]
                by_cases hkey : ((ch : ℕ), (k : ℕ)) = ((ch0 : ℕ), (k0 : ℕ))
                · obtain ⟨rfl, rfl⟩ : ch = ch0 ∧ k = k0 := by simpa [Prod.ext_iff] using hkey
                  rw [mK_self]
                  show (if ((ch : ℕ), (k : ℕ)) = (ch, k)
                        then (if (List.countP (onP (mK ch k)) pre
                                - List.countP (offP (mK ch k)) pre) - 1 = 0 then none
                              else some ((List.countP (onP (mK ch k)) pre
                                - List.countP (offP (mK ch k)) pre) - 1))
                        else st.counts (ch, k)) = _
                  rw [if_pos rfl,
                    show (if (true : Bool) = true then 1 else 0) = 1 from rfl]
                  have harith : List.countP (onP (mK ch k)) pre
                        - (List.countP (offP (mK ch k)) pre + 1)
                      = List.countP (onP (mK ch k)) pre
                        - List.countP (offP (mK ch k)) pre - 1 := by omega
                  rw [harith]
                · rw [mK_other hkey]
                  show (if ((ch : ℕ), (k : ℕ)) = (ch0, k0)
                        then (if (List.countP (onP (mK ch0 k0)) pre
                                - List.countP (offP (mK ch0 k0)) pre) - 1 = 0 then none
                              else some ((List.countP (onP (mK ch0 k0)) pre
                                - List.countP (offP (mK ch0 k0)) pre) - 1))
                        else st.counts (ch, k)) = _
                  rw [if_neg hkey,
                    show (if (false : Bool) = true then 1 else 0) = 0 from rfl,
                    Nat.add_zero]
                  exact hinv ch k
              · intro ch k
                have hco : List.countP (onP (mK ch k)) (pre ++ [⟨ti, ts, .midi ch0 (.noteOff k0 v0)⟩])
                    = List.countP (onP (mK ch k)) pre := by
                  rw [List.countP_append, countP_one]
                  rfl
                have hcf : List.countP (offP (mK ch k)) (pre ++ [⟨ti, ts, .midi ch0 (.noteOff k0 v0)⟩])
                    = List.countP (offP (mK ch k)) pre + (if mK ch k ch0 k0 = true then 1 else 0) := by
                  rw [List.countP_append, countP_one]
                  rfl
                rw [hco, hcf]
                by_cases hkey : ((ch : ℕ), (k : ℕ)) = ((ch0 : ℕ), (k0 : ℕ))
                · obtain ⟨rfl, rfl⟩ : ch = ch0 ∧ k = k0 := by simpa [Prod.ext_iff] using hkey
                  have h2 := hle ch k
                  split <;> omega
                · rw [mK_other hkey]
                  have h2 := hle ch k
                  simp only [Bool.false_eq_true, if_false, Nat.add_zero]
                  omega

/-- The overlap pass succeeds on every per-key prefix-balanced list. -/
lemma note_count_pass_isSome (l : List AbsoluteTrackEvent)
    (hbal : ∀ P S, l = P ++ S → ∀ ch k,
      List.countP (offP (mK ch k)) P ≤ List.countP (onP (mK ch k)) P) :
    (note_count_pass l).isSome :=
  note_go_isSome l [] ⟨fun _ => none, []⟩ (fun P S h => hbal P S h)
    (fun _ _ => rfl) (fun _ _ => Nat.le_refl 0)

/-- C9 (amended): on every project whose notes do not overflow the usize
tick arithmetic (pattern position plus note position plus note length below
2 to the 64 for every note of an assigned track), the fatal
internal-consistency checks of the validator are unreachable: over the
sorted event sequence the global polyphony counter is strictly positive at
every note-off and the per-(channel, pitch) active count is present and
positive at every note-off, so both validator passes succeed, and with the
delta pass the conversion always returns a result.  When a note wraps, its
release sorts before its onset and the polyphony assertion aborts the run
(see the counterexample). -/
theorem claim_C9_amended (args : Args) (p : LmmsProject) (hnof : no_note_overflow p) :
    (poly_pass (sorted_events args p)).isSome
      ∧ (note_count_pass (sorted_events args p)).isSome
      ∧ (convert args p).isSome := by
  have hbal := prefix_balance args p hnof
  have h1 : (poly_pass (sorted_events args p)).isSome := by
    apply poly_pass_isSome
    intro P S h
    exact hbal P S h (fun _ _ => true)
  have h2 : (note_count_pass (sorted_events args p)).isSome := by
    apply note_count_pass_isSome
    intro P S h ch k
    exact hbal P S h (mK ch k)
  refine ⟨h1, h2, ?_⟩
  obtain ⟨s1, hs1⟩ := Option.isSome_iff_exists.1 h1
  obtain ⟨s2, hs2⟩ := Option.isSome_iff_exists.1 h2
  have h3 : (compute_deltas (sorted_events args p)).isSome :=
    compute_deltas_sort_isSome (midi_track_events args p)
  obtain ⟨ds, hds⟩ := Option.isSome_iff_exists.1 h3
  unfold convert
  rw [hs1, hs2, hds]
  rfl

/-- Witness for the amended C9 at a concrete one-note project. -/
theorem claim_C9_witness :
    (poly_pass (sorted_events args_default (c10_project 0 0 0 none))).isSome
      ∧ (note_count_pass (sorted_events args_default (c10_project 0 0 0 none))).isSome
      ∧ (convert args_default (c10_project 0 0 0 none)).isSome :=
  claim_C9_amended args_default (c10_project 0 0 0 none) (by decide)

/-- Counterexample to C9 as stated: on a project with a note whose position
plus length wraps the 64-bit usize tick arithmetic, the wrapped release
event sorts before its onset, the polyphony pass hits the
current_polyphony > 0 assertion on the first event, and the conversion
aborts. -/
theorem claim_C9_counterexample :
    poly_pass (sorted_events args_default c9_cex_project) = none
      ∧ convert args_default c9_cex_project = none := by
  refine ⟨by decide, by decide⟩

end Lmms2Mid
